import Mathlib

/-!
Verification of the frame-synchronization and playback engine of the
`lol-viewer` repository (the `useFrameIndex` hook in the live-game source
file, plus its playback helpers).

Modelling conventions:
  * Epoch-millisecond timestamps are `Int` (the source converts each frame's
    `rfc460Timestamp` via `toEpochMillis` into an epoch-millisecond number;
    frames are modelled as carrying that epoch value directly, together with
    a terminal-state flag for window frames and an opaque payload).
  * A JavaScript `Map` keyed by epoch is modelled as a key-sorted
    association list (`mset` / `mget` / `mhas`).  The engine never observes
    insertion order of these maps (it only gets, sets, and scans values),
    so the canonical key-sorted representation is faithful.
  * JavaScript array primitives are modelled directly: `jsGetElem` is
    `arr[i]` (returning `undefined`, i.e. `none`, out of bounds),
    `jsIndexOf` is `Array.prototype.indexOf` (returning `-1` when absent),
    `sortedDedup` is `Array.from(new Set(xs)).sort((a, b) => a - b)` and
    `sortInts` is `xs.sort((a, b) => a - b)`.
  * Speed factors and scheduler delays are `Rat` (exact rational arithmetic;
    all the engine's delay computations are divisions of integer millisecond
    deltas by the user speed factor).
-/

/-! ## JavaScript array primitives -/

/-- `arr[i]` on a JS array of numbers: `none` models `undefined` (out of bounds
or negative index). -/
def jsGetElem (l : List Int) (i : Int) : Option Int :=
  if i < 0 then none else l.get? i.toNat

/-- `Array.prototype.indexOf`: the first index of `x` in `l`, or `-1`. -/
def jsIndexOf (l : List Int) (x : Int) : Int :=
  match l with
  | [] => -1
  | y :: ys =>
    if y = x then 0
    else
      let r := jsIndexOf ys x
      if r = -1 then -1 else r + 1

/-- Insert `x` into a strictly sorted list, keeping it strictly sorted and
duplicate-free. -/
def insertTS (x : Int) : List Int → List Int
  | [] => [x]
  | y :: ys =>
    if x < y then x :: y :: ys
    else if x = y then y :: ys
    else y :: insertTS x ys

/-- `Array.from(new Set(l)).sort((a, b) => a - b)`: the strictly increasing
enumeration of the elements of `l`. -/
def sortedDedup (l : List Int) : List Int :=
  l.foldl (fun acc x => insertTS x acc) []

/-- Insert `x` into a sorted list keeping duplicates (for plain `.sort`). -/
def insertLe (x : Int) : List Int → List Int
  | [] => [x]
  | y :: ys => if x < y then x :: y :: ys else y :: insertLe x ys

/-- `xs.sort((a, b) => a - b)` (duplicates kept). -/
def sortInts (l : List Int) : List Int :=
  l.foldr insertLe []

/-! ## JS `Map` keyed by epoch, as a key-sorted association list -/

/-- `map.set(k, v)` on a key-sorted association list: replace the binding for
`k` if present, otherwise insert it at its sorted position. -/
def mset {α : Type} (m : List (Int × α)) (k : Int) (v : α) : List (Int × α) :=
  match m with
  | [] => [(k, v)]
  | (k0, v0) :: rest =>
    if k < k0 then (k, v) :: (k0, v0) :: rest
    else if k = k0 then (k, v) :: rest
    else (k0, v0) :: mset rest k v

/-- `map.get(k)`. -/
def mget {α : Type} (m : List (Int × α)) (k : Int) : Option α :=
  match m.find? (fun p => p.1 == k) with
  | some p => some p.2
  | none => none

/-- `map.has(k)`. -/
def mhas {α : Type} (m : List (Int × α)) (k : Int) : Bool :=
  m.any (fun p => p.1 == k)

/-- Perform a sequence of `map.set` writes (first to last). -/
def msetAll {α : Type} (m : List (Int × α)) (ws : List (Int × α)) : List (Int × α) :=
  ws.foldl (fun acc p => mset acc p.1 p.2) m

/-! ## Data model (`FrameIndexState` from the source hook) -/

/-- A window frame: epoch-millisecond timestamp (`toEpochMillis` of its
`rfc460Timestamp`), whether its `gameState` is terminal
(`isTerminalGameState`), and an opaque payload. -/
structure FrameW where
  ts : Int
  terminal : Bool
  data : Nat
deriving DecidableEq, Repr

/-- A details frame: epoch-millisecond timestamp and an opaque payload. -/
structure FrameD where
  ts : Int
  data : Nat
deriving DecidableEq, Repr

def BACKFILL_STEP_MS : Int := 10000
def BACKFILL_CONCURRENCY : Nat := 10
def DEFAULT_DESIRED_LAG_MS : Int := 10000
def MIN_FRAME_MS : Int := 150
def MAX_FRAME_MS : Int := 4000
def MAX_SPEED_FACTOR : Rat := 10

/-- The engine state held by the hook (`FrameIndexState` in the source).
`GameMetadata` is opaque (`Nat`). -/
structure FrameIndexState where
  framesWindow : List (Int × FrameW)
  framesDetails : List (Int × FrameD)
  orderedTimestamps : List Int
  hasFirstFrame : Bool
  isBackfilling : Bool
  livePointer : Int
  playbackPointer : Option Int
  metadata : Option Nat
  isFinal : Bool
  isLivePaused : Bool
  desiredLagMs : Int
  speedFactor : Rat
  displayIndex : Int
  playQueue : List Int
deriving DecidableEq, Repr

/-- `createInitialState()` from the source. -/
def createInitialState : FrameIndexState :=
  { framesWindow := []
    framesDetails := []
    orderedTimestamps := []
    hasFirstFrame := false
    isBackfilling := false
    livePointer := -1
    playbackPointer := none
    metadata := none
    isFinal := false
    isLivePaused := false
    desiredLagMs := DEFAULT_DESIRED_LAG_MS
    speedFactor := 1
    displayIndex := -1
    playQueue := [] }

/-- The result record returned by `mergeFrames`. -/
structure MergeResult where
  changed : Bool
  addedEarlier : Bool
  addedLater : Bool
  hasFramesAfter : Bool
deriving DecidableEq, Repr

/-! ## `mergeFrames`

The merge is split into named pieces mirroring the blocks of the source
function; `mergeFrames` itself sequences them in source order. -/

/-- The timestamps of the incoming frames, window frames first (the source
iterates `windowFrames` then `detailFrames`). -/
def epochsOf (wfs : List FrameW) (dfs : List FrameD) : List Int :=
  wfs.map (fun f => f.ts) ++ dfs.map (fun f => f.ts)

/-- `Array.from(timestampSet).sort((a, b) => a - b)` where `timestampSet` is
the previous timestamps plus every incoming frame's epoch. -/
def computeSorted (prevTs : List Int) (wfs : List FrameW) (dfs : List FrameD) : List Int :=
  sortedDedup (prevTs ++ epochsOf wfs dfs)

/-- The epochs collected into `newLaterFrames` (new keys strictly after the
previous latest timestamp), then `Array.from(set).sort(...)`. -/
def newLaterSortedOf (prev : FrameIndexState) (wfs : List FrameW) (dfs : List FrameD) : List Int :=
  sortedDedup ((epochsOf wfs dfs).filter (fun e =>
    !(mhas prev.framesWindow e) && !(mhas prev.framesDetails e) &&
      (match prev.orderedTimestamps.getLast? with
       | none => true
       | some latest => decide (latest < e))))

/-- Remap `playbackPointer` by re-locating its previous timestamp value in the
new sorted order (source lines: `playbackPointer` block of `mergeFrames`). -/
def remapPointer (prev : FrameIndexState) (sorted : List Int) : Option Int :=
  match prev.playbackPointer with
  | none => none
  | some p =>
    match jsGetElem prev.orderedTimestamps p with
    | some t =>
      let ni := jsIndexOf sorted t
      if ni = -1 then none else some ni
    | none => none

/-- First block of the `displayIndex` computation: relocation of the previous
display timestamp, upper-bound clamp, and live initialization. -/
def displayStep1 (prev : FrameIndexState) (sorted : List Int) (livePointer : Int)
    (newPP : Option Int) (prevDisplayTs : Option Int) : Int :=
  if sorted.length = 0 then -1
  else
    let d1 :=
      match prevDisplayTs with
      | some t =>
        let ni := jsIndexOf sorted t
        if ni ≠ -1 then ni
        else if prev.playbackPointer = none then livePointer
        else prev.displayIndex
      | none => prev.displayIndex
    let d2 := if d1 ≥ (sorted.length : Int) then (sorted.length : Int) - 1 else d1
    if d2 < 0 ∧ newPP = none ∧ livePointer ≥ 0 then livePointer else d2

/-- The live-mode play-queue extension with newly appended later frames. -/
def queueAppendStep (prev : FrameIndexState) (sorted : List Int)
    (newLaterSorted : List Int) (di : Int) (livePointer : Int) : List Int :=
  if prev.playbackPointer = none ∧ newLaterSorted ≠ [] then
    let lastQueuedIndex : Int :=
      match prev.playQueue.getLast? with
      | some q => q
      | none => if di ≥ 0 then di else livePointer
    let newIndices := newLaterSorted.filterMap (fun ts =>
      let ni := jsIndexOf sorted ts
      if ni > lastQueuedIndex then some ni else none)
    if newIndices ≠ [] then sortedDedup (prev.playQueue ++ newIndices)
    else prev.playQueue
  else prev.playQueue

/-- The play-queue index remapping applied after a backfill merge
(`didAddEarlier` in live mode with a non-empty queue). -/
def queueAdjustStep (didAddEarlier : Bool) (prev : FrameIndexState)
    (sorted : List Int) (pq : List Int) : List Int :=
  if didAddEarlier ∧ prev.playbackPointer = none ∧ prev.playQueue ≠ [] then
    sortInts (prev.playQueue.filterMap (fun qi =>
      match jsGetElem prev.orderedTimestamps qi with
      | some qts =>
        let ni := jsIndexOf sorted qts
        if ni ≠ -1 then some ni else none
      | none => none))
  else pq

/-- The backfill special handling: re-locate the maintained timestamp. -/
def maintainStep (didAddEarlier : Bool) (prevPP : Option Int) (ctm : Option Int)
    (sorted : List Int) (di : Int) : Int :=
  if didAddEarlier ∧ prevPP = none then
    match ctm with
    | some t =>
      let mi := jsIndexOf sorted t
      if mi ≠ -1 then mi else di
    | none => di
  else di

/-- The final live-mode safety check: never let the display index resolve to a
smaller timestamp than before the merge. -/
def safetyStep (prevPP : Option Int) (prevDisplayTs : Option Int)
    (sorted : List Int) (di : Int) : Int :=
  if prevPP = none ∧ di ≥ 0 then
    match prevDisplayTs, jsGetElem sorted di with
    | some pt, some cur =>
      if cur < pt then
        let si := jsIndexOf sorted pt
        if si ≠ -1 then si else di
      else di
    | _, _ => di
  else di

/-- `didAddEarlier`: the sorted result grew at the head. -/
def didAddEarlierOf (prevTs sorted : List Int) : Bool :=
  match sorted.head? with
  | none => false
  | some s0 =>
    match prevTs.head? with
    | none => true
    | some pe => decide (s0 < pe)

/-- `didAddLater`: the sorted result grew at the tail. -/
def didAddLaterOf (prevTs sorted : List Int) : Bool :=
  match sorted.getLast? with
  | none => false
  | some sl =>
    match prevTs.getLast? with
    | none => true
    | some pl => decide (pl < sl)

/-- The body of `mergeFrames` past its two early returns (the state update
committed by `setFrameState` plus the returned flags). -/
def mergeFull (prev : FrameIndexState) (wfs : List FrameW) (dfs : List FrameD)
    (md : Option Nat) : FrameIndexState × MergeResult :=
  let hasTerminalState : Bool := wfs.any (fun f => f.terminal)
  let nextWindow := msetAll prev.framesWindow (wfs.map (fun f => (f.ts, f)))
  let nextDetails := msetAll prev.framesDetails (dfs.map (fun f => (f.ts, f)))
  let prevDisplayTs := jsGetElem prev.orderedTimestamps prev.displayIndex
  let ctm : Option Int :=
    match prev.playbackPointer with
    | some p => jsGetElem prev.orderedTimestamps p
    | none => prevDisplayTs
  let newLaterSorted := newLaterSortedOf prev wfs dfs
  let sorted := computeSorted prev.orderedTimestamps wfs dfs
  let metadataToUse := if prev.metadata.isNone then md else prev.metadata
  let didAddEarlier := didAddEarlierOf prev.orderedTimestamps sorted
  let didAddLater := didAddLaterOf prev.orderedTimestamps sorted
  let livePointer : Int := if sorted.isEmpty then -1 else (sorted.length : Int) - 1
  let newPP := remapPointer prev sorted
  let di1 := displayStep1 prev sorted livePointer newPP prevDisplayTs
  let pq1 := queueAppendStep prev sorted newLaterSorted di1 livePointer
  let pq2 := queueAdjustStep didAddEarlier prev sorted pq1
  let di2 := maintainStep didAddEarlier prev.playbackPointer ctm sorted di1
  let di3 := safetyStep prev.playbackPointer prevDisplayTs sorted di2
  let existingTerminal : Bool := prev.isFinal || nextWindow.any (fun p => p.2.terminal)
  let nextIsFinal : Bool := existingTerminal || hasTerminalState
  ({ prev with
      framesWindow := nextWindow
      framesDetails := nextDetails
      orderedTimestamps := sorted
      livePointer := livePointer
      playbackPointer := newPP
      displayIndex := di3
      metadata := metadataToUse
      isFinal := nextIsFinal
      playQueue := pq2 },
   { changed := true, addedEarlier := didAddEarlier, addedLater := didAddLater,
     hasFramesAfter := !sorted.isEmpty })

/-- `mergeFrames(windowFrames, detailFrames, metadata)` from the source,
returning the updated state together with the `MergeResult`. -/
def mergeFrames (prev : FrameIndexState) (wfs : List FrameW) (dfs : List FrameD)
    (md : Option Nat) : FrameIndexState × MergeResult :=
  let hasPayload : Bool := !wfs.isEmpty || !dfs.isEmpty
  let shouldSetMetadata : Bool := md.isSome && prev.metadata.isNone
  if !hasPayload && !shouldSetMetadata then
    (prev, { changed := false, addedEarlier := false, addedLater := false,
             hasFramesAfter := !prev.orderedTimestamps.isEmpty })
  else
    let sorted := computeSorted prev.orderedTimestamps wfs dfs
    let metadataMutated : Bool := prev.metadata.isNone && md.isSome
    let timestampsChanged : Bool := decide (sorted ≠ prev.orderedTimestamps)
    if !hasPayload && !timestampsChanged && !metadataMutated then
      (prev, { changed := false, addedEarlier := false, addedLater := false,
               hasFramesAfter := !sorted.isEmpty })
    else mergeFull prev wfs dfs md

/-- One merge call's inputs. -/
structure MergeInput where
  wfs : List FrameW
  dfs : List FrameD
  md : Option Nat
deriving DecidableEq, Repr

/-- The state after a merge (discarding the `MergeResult`). -/
def applyMerge (s : FrameIndexState) (i : MergeInput) : FrameIndexState :=
  (mergeFrames s i.wfs i.dfs i.md).1

/-- A sequence of merge calls applied left to right. -/
def foldMerges (s : FrameIndexState) (l : List MergeInput) : FrameIndexState :=
  l.foldl applyMerge s

/-- The timestamp `displayIndex` resolves to (`displayedTs` in the source:
`orderedTimestamps[displayIndex]` when in bounds, else `null`). -/
def displayedTs (s : FrameIndexState) : Option Int :=
  jsGetElem s.orderedTimestamps s.displayIndex

/-- The timestamp `playbackPointer` resolves to (`selectedTimestamp`). -/
def playbackTs (s : FrameIndexState) : Option Int :=
  match s.playbackPointer with
  | some p => jsGetElem s.orderedTimestamps p
  | none => none

/-! ## Playback operations (`showNextFrame`, scheduler delay, mode controls) -/

/-- `showNextFrame` from the source: one step of the presentation clock. -/
def showNextFrame (prev : FrameIndexState) : FrameIndexState :=
  match prev.playbackPointer with
  | some p =>
    let nextIndex := p + 1
    if nextIndex ≤ prev.livePointer then
      { prev with playbackPointer := some nextIndex, displayIndex := nextIndex }
    else if !prev.isFinal then
      { prev with playbackPointer := none, displayIndex := prev.livePointer,
                  isLivePaused := false }
    else
      { prev with isLivePaused := true }
  | none =>
    match prev.playQueue with
    | [] => prev
    | nextIndex :: rest =>
      if prev.isLivePaused then prev
      else { prev with displayIndex := nextIndex, playQueue := rest }

/-- `Math.min` on two rationals. -/
def jsMin (a b : Rat) : Rat := if a ≤ b then a else b

/-- `Math.max` on two rationals. -/
def jsMax (a b : Rat) : Rat := if a ≤ b then b else a

/-- The clamped per-step delay formula shared by both branches of
`scheduleNextFrame`:
`Math.max(MIN_FRAME_MS, Math.min(MAX_FRAME_MS, rawDelta > 0 ? rawDelta / speedFactor : MIN_FRAME_MS))`. -/
def stepDelayRat (rawDelta : Int) (speed : Rat) : Rat :=
  let adjusted : Rat := if 0 < rawDelta then (rawDelta : Rat) / speed else (MIN_FRAME_MS : Rat)
  jsMax (MIN_FRAME_MS : Rat) (jsMin (MAX_FRAME_MS : Rat) adjusted)

/-- The `dt` that `scheduleNextFrame` passes to `setTimeout`, or `none` when
it returns without arming a timer. -/
def scheduleDelay (s : FrameIndexState) : Option Rat :=
  match s.playbackPointer with
  | some p =>
    if s.isLivePaused || p ≥ s.livePointer then none
    else
      match jsGetElem s.orderedTimestamps (p + 1), jsGetElem s.orderedTimestamps p with
      | some nextTs, some currentTs => some (stepDelayRat (nextTs - currentTs) s.speedFactor)
      | _, _ => none
  | none =>
    match s.playQueue with
    | [] => none
    | nextIndex :: _ =>
      if s.isLivePaused then none
      else
        match jsGetElem s.orderedTimestamps nextIndex with
        | none => none
        | some nextTs =>
          let previousIndex := if s.displayIndex ≥ 0 then s.displayIndex else nextIndex - 1
          let previousTs :=
            if previousIndex ≥ 0 then jsGetElem s.orderedTimestamps previousIndex else none
          let rawDelta : Int :=
            match previousTs with
            | some pt => nextTs - pt
            | none => MIN_FRAME_MS
          some (stepDelayRat rawDelta s.speedFactor)

/-- `goLive()` from the source. -/
def goLive (prev : FrameIndexState) : FrameIndexState :=
  match prev.playbackPointer with
  | none => prev
  | some _ =>
    { prev with playbackPointer := none, displayIndex := prev.livePointer,
                isLivePaused := false }

/-- Modelled from the spec: `findClosestTimestampIndex` lives in
`utils/timestampUtils`, which is not among the provided sources.  Per the
spec, `scrubTo` sets the pointer to "the index closest to the requested
timestamp"; we return the first index minimizing the absolute distance to the
requested epoch, and `-1` on an empty list. -/
def findClosestTimestampIndex (l : List Int) (epoch : Int) : Int :=
  match l.enum.foldl (fun (best : Option (Nat × Nat)) (p : Nat × Int) =>
    let d := (p.2 - epoch).natAbs
    match best with
    | none => some (p.1, d)
    | some (bi, bd) => if d < bd then some (p.1, d) else some (bi, bd)) none with
  | none => -1
  | some (bi, _) => (bi : Int)

/-- `setPlaybackByEpoch(epoch)` (`scrubTo`) from the source, state part. -/
def setPlaybackByEpoch (prev : FrameIndexState) (epoch : Int) : FrameIndexState :=
  if prev.orderedTimestamps.isEmpty then prev
  else
    let index := findClosestTimestampIndex prev.orderedTimestamps epoch
    if index < 0 then prev
    else if prev.playbackPointer = some index then prev
    else
      { prev with playbackPointer := some index, displayIndex := index,
                  isLivePaused := true }

/-- `setSpeedFactor(factor)` from the source:
`Math.max(0.5, Math.min(MAX_SPEED_FACTOR, factor))`. -/
def setSpeedFactor (prev : FrameIndexState) (factor : Rat) : FrameIndexState :=
  { prev with speedFactor := max (1 / 2 : Rat) (min MAX_SPEED_FACTOR factor) }

/-- `pauseLive()` state update. -/
def pauseLive (prev : FrameIndexState) : FrameIndexState :=
  { prev with isLivePaused := true }

/-- `resumeLive()` state update. -/
def resumeLive (prev : FrameIndexState) : FrameIndexState :=
  { prev with isLivePaused := false }

/-- `setDesiredLagMs(ms)` state update. -/
def setDesiredLagMs (prev : FrameIndexState) (ms : Int) : FrameIndexState :=
  { prev with desiredLagMs := ms }

/-- A session pairs the hook state with whether the scheduler timer
(`schedulerTimerRef`) is currently armed. -/
structure Session where
  st : FrameIndexState
  timerArmed : Bool
deriving DecidableEq, Repr

/-- `setPlaybackByEpoch` at the session level: the source calls
`stopScheduler()` exactly when it commits the scrub (not on the early
returns). -/
def scrubToSession (sess : Session) (epoch : Int) : Session :=
  if sess.st.orderedTimestamps.isEmpty then sess
  else
    let index := findClosestTimestampIndex sess.st.orderedTimestamps epoch
    if index < 0 then sess
    else if sess.st.playbackPointer = some index then sess
    else
      { st := { sess.st with playbackPointer := some index, displayIndex := index,
                             isLivePaused := true }
        timerArmed := false }

/-! ## Backfill (`runBackfill`, `markHasFirstFrame`) -/

/-- Modelled from the spec: `roundToPrevious10s` lives in
`utils/timestampUtils`, which is not among the provided sources.  The spec
says cursors are "rounded down to the feed's granularity" and the granularity
is a 10-second boundary, so we floor to the previous multiple of 10000 ms. -/
def roundToPrevious10s (t : Int) : Int :=
  t - t.emod 10000

/-- `markHasFirstFrame()` from the source, state part (the cursor reset is in
`backfillIter`). -/
def markHasFirstFrame (prev : FrameIndexState) : FrameIndexState :=
  if prev.hasFirstFrame then
    if prev.isBackfilling then { prev with isBackfilling := false } else prev
  else
    { prev with hasFirstFrame := true, isBackfilling := false }

/-- The mutable backfill bookkeeping: hook state plus `backfillCursorRef`. -/
structure BackfillState where
  fis : FrameIndexState
  cursor : Option Int
deriving DecidableEq, Repr

/-- A fetched chunk: window frames, details frames, optional metadata
(the shape returned by `fetchChunk`). -/
def Chunk : Type := List FrameW × List FrameD × Option Nat

/-- Accumulator for processing one backfill batch's settled results in order. -/
structure BatchAcc where
  st : FrameIndexState
  anyProgress : Bool
  sawFrames : Bool
  earliest : Option Int
deriving Repr

/-- Processing of one settled fetch result inside a backfill batch. -/
def processChunk (acc : BatchAcc) (r : Chunk × Int) : BatchAcc :=
  let wfs := r.1.1
  let dfs := r.1.2.1
  let md := r.1.2.2
  let tc := r.2
  if wfs.isEmpty && dfs.isEmpty then acc
  else
    let out := mergeFrames acc.st wfs dfs md
    { st := out.1
      anyProgress := acc.anyProgress || out.2.changed
      sawFrames := true
      earliest :=
        match acc.earliest with
        | none => some tc
        | some e => if tc < e then some tc else some e }

/-- The batch of target cursors, always stepping further back in time
(`currentCursor - BACKFILL_STEP_MS * i` for `i < BACKFILL_CONCURRENCY`). -/
def batchTargetsFrom (cursor : Int) (c : Nat) : List Int :=
  (List.range c).map (fun (i : Nat) => cursor - BACKFILL_STEP_MS * (i : Int))

/-- The effective cursor of an iteration: `backfillCursorRef` if set, else
initialized from the earliest known frame rounded down minus one step. -/
def effectiveCursor (bs : BackfillState) (anchor : Int) : Int :=
  match bs.cursor with
  | some c => c
  | none => roundToPrevious10s anchor - BACKFILL_STEP_MS

/-- One iteration of the `runBackfill` while-loop, given a deterministic
fetcher.  Returns the new bookkeeping state and whether the loop stopped
(`break`) in this iteration.  The `Number.isFinite` guards of the source
cannot fire over `Int` and the per-request retry loop is not modelled (the
fetcher is deterministic, so every request settles fulfilled). -/
def backfillIter (fetch : Int → Chunk) (bs : BackfillState) : BackfillState × Bool :=
  if bs.fis.hasFirstFrame then (bs, true)
  else
    match bs.fis.orderedTimestamps with
    | [] => (bs, true)
    | anchor :: _ =>
      let cursor := effectiveCursor bs anchor
      let targets := batchTargetsFrom cursor BACKFILL_CONCURRENCY
      let acc := (targets.map (fun tc => (fetch tc, tc))).foldl processChunk
        { st := bs.fis, anyProgress := false, sawFrames := false, earliest := none }
      if acc.anyProgress then
        match acc.st.orderedTimestamps with
        | [] => ({ fis := markHasFirstFrame acc.st, cursor := none }, true)
        | ue :: _ =>
          ({ fis := acc.st, cursor := some (roundToPrevious10s ue - BACKFILL_STEP_MS) }, false)
      else if !acc.sawFrames then
        ({ fis := markHasFirstFrame acc.st, cursor := none }, true)
      else
        match acc.earliest with
        | some e => ({ fis := acc.st, cursor := some (e - BACKFILL_STEP_MS) }, false)
        | none =>
          match acc.st.orderedTimestamps with
          | ue :: _ =>
            ({ fis := acc.st, cursor := some (roundToPrevious10s ue - BACKFILL_STEP_MS) }, false)
          | [] => ({ fis := markHasFirstFrame acc.st, cursor := none }, true)

/-- The `runBackfill` while-loop, bounded by an iteration budget. -/
def runBackfillLoop (fetch : Int → Chunk) : Nat → BackfillState → BackfillState
  | 0, bs => bs
  | Nat.succ n, bs =>
    let out := backfillIter fetch bs
    if out.2 then out.1 else runBackfillLoop fetch n out.1

/-! ## Synthetic upstream history for the backfill scenario

Modelled from the spec: the upstream fetchers (`getLiveWindowGame` /
`getLiveDetailsGame`) are external collaborators, "a keyed-by-start-time
frame fetcher, returning zero or more frames"; a request at a cursor returns
the frames of that 10-second time slice.  The synthetic history holds `n`
frames at fixed `BACKFILL_STEP_MS` spacing starting at `start`. -/

/-- The `n` synthetic history timestamps `start, start + 10000, ...`. -/
def histFrames (start : Int) (n : Nat) : List Int :=
  (List.range n).map (fun (j : Nat) => start + BACKFILL_STEP_MS * (j : Int))

/-- The synthetic fetcher: the history frames of the slice
`[tc, tc + BACKFILL_STEP_MS)`. -/
def fetchHist (start : Int) (n : Nat) (tc : Int) : Chunk :=
  (((histFrames start n).filter (fun t => decide (tc ≤ t) && decide (t < tc + BACKFILL_STEP_MS))).map
      (fun t => ({ ts := t, terminal := false, data := 0 } : FrameW)),
   [], none)

/-- The engine state at subscription time for the backfill scenario: the
initial state after one forward merge delivering the latest history frame. -/
def backfillInitState (start : Int) (n : Nat) : FrameIndexState :=
  (mergeFrames createInitialState
    [{ ts := start + BACKFILL_STEP_MS * ((n : Int) - 1), terminal := false, data := 0 }]
    [] none).1

/-! ## Auxiliary definitions for the verification -/

/-- Representation invariant of the map model: keys strictly sorted (holds for
every map the engine builds from the empty initial maps). -/
def SortedKeys {α : Type} (m : List (Int × α)) : Prop :=
  List.Sorted (· < ·) (m.map Prod.fst)

/-- The last value written for key `k` in a write sequence, if any. -/
def lastWrite {α : Type} : List (Int × α) → Int → Option α
  | [], _ => none
  | p :: ws, k =>
    match lastWrite ws k with
    | some v => some v
    | none => if p.1 = k then some p.2 else none

/-- The timestamps `start + STEP * j, ..., start + STEP * (n - 1)`: the suffix
of the synthetic history from index `j` on. -/
def histSuffix (start : Int) (n j : Nat) : List Int :=
  (List.range (n - j)).map (fun (i : Nat) => start + BACKFILL_STEP_MS * ((j : Int) + (i : Int)))

/-! ### Concrete states used to instantiate the claims -/

/-- A live-mode state whose index holds `[0, 10000, 20000]` with the display
at `t = 20000` (the backfill-remap scenario of the spec). -/
def liveIndexState : FrameIndexState :=
  { createInitialState with
      framesWindow := [(0, ⟨0, false, 0⟩), (10000, ⟨10000, false, 1⟩),
                       (20000, ⟨20000, false, 2⟩)]
      orderedTimestamps := [0, 10000, 20000]
      livePointer := 2
      displayIndex := 2 }

/-- A backfill merge delivering frames at `t = [-30000, -20000, -10000]`. -/
def backfillInput : MergeInput :=
  { wfs := [⟨-30000, false, 3⟩, ⟨-20000, false, 4⟩, ⟨-10000, false, 5⟩]
    dfs := []
    md := none }

/-- A live-mode state over the index `[0, 10000, 20000, 30000]` (the scrub
scenario of the spec). -/
def scrubBaseState : FrameIndexState :=
  { createInitialState with
      framesWindow := [(0, ⟨0, false, 0⟩), (10000, ⟨10000, false, 1⟩),
                       (20000, ⟨20000, false, 2⟩), (30000, ⟨30000, false, 3⟩)]
      orderedTimestamps := [0, 10000, 20000, 30000]
      livePointer := 3
      displayIndex := 3 }

/-- Manual mode at the last index of a finished match. -/
def manualEndFinal : FrameIndexState :=
  { scrubBaseState with playbackPointer := some 3, isFinal := true }

/-- Manual mode at the last index of a match still in progress. -/
def manualEndLive : FrameIndexState :=
  { scrubBaseState with playbackPointer := some 3 }

/-- Manual mode over two frames 1000 ms apart (clamp-free spacing). -/
def manualWideGap : FrameIndexState :=
  { createInitialState with
      orderedTimestamps := [0, 1000]
      livePointer := 1
      playbackPointer := some 0
      displayIndex := 0 }

/-- Manual mode over two frames 200 ms apart (spacing inside the clamp). -/
def manualShortGap : FrameIndexState :=
  { createInitialState with
      orderedTimestamps := [0, 200]
      livePointer := 1
      playbackPointer := some 0
      displayIndex := 0 }

/-- A manual-mode state whose playback pointer already sits at the index
closest to epoch `0`. -/
def scrubSameIndexState : FrameIndexState :=
  { createInitialState with
      orderedTimestamps := [0, 10000]
      livePointer := 1
      playbackPointer := some 0
      displayIndex := 1 }

/-- The batch accumulator after processing the first `c` requests of a backfill
batch launched from `cursor` on state `st` (the foldl inside `backfillIter`,
parametrised by the batch width for the induction). -/
def batchRun (fetch : Int → Chunk) (st : FrameIndexState) (cursor : Int) (c : Nat) : BatchAcc :=
  ((batchTargetsFrom cursor c).map (fun tc => (fetch tc, tc))).foldl processChunk
    { st := st
      anyProgress := false
      sawFrames := false
      earliest := none }

/-! ## Lemmas: JS array primitives -/

theorem jsGetElem_eq_some_iff {l : List Int} {i : Int} {x : Int} :
    jsGetElem l i = some x ↔ 0 ≤ i ∧ l.get? i.toNat = some x := by
  simp only [jsGetElem]
  split
  · next h =>
    constructor
    · intro hx; cases hx
    · intro hx; omega
  · next h =>
    constructor
    · intro hx; exact ⟨le_of_not_lt h, hx⟩
    · intro hx; exact hx.2

theorem mem_of_jsGetElem {l : List Int} {i : Int} {x : Int}
    (h : jsGetElem l i = some x) : x ∈ l := by
  rcases jsGetElem_eq_some_iff.mp h with ⟨_, hg⟩
  exact List.get?_mem hg

theorem jsGetElem_cons_succ {y : Int} {ys : List Int} {i : Int} (h : 0 ≤ i) :
    jsGetElem (y :: ys) (i + 1) = jsGetElem ys i := by
  simp only [jsGetElem]
  have h1 : ¬ (i + 1 < 0) := by omega
  have h2 : ¬ (i < 0) := by omega
  simp only [h1, h2, if_false]
  have : (i + 1).toNat = i.toNat + 1 := by omega
  rw [this]
  rfl

theorem jsGetElem_cons_zero {y : Int} {ys : List Int} :
    jsGetElem (y :: ys) 0 = some y := rfl

theorem jsIndexOf_nonneg_of_mem {l : List Int} {x : Int} (h : x ∈ l) :
    0 ≤ jsIndexOf l x := by
  induction l with
  | nil => cases h
  | cons y ys ih =>
    simp only [jsIndexOf]
    by_cases hy : y = x
    · simp [hy]
    · simp only [if_neg hy]
      have hmem : x ∈ ys := by
        rcases List.mem_cons.mp h with h1 | h1
        · exact absurd h1.symm hy
        · exact h1
      have := ih hmem
      split
      · next hr => omega
      · omega

theorem jsIndexOf_neg_of_not_mem {l : List Int} {x : Int} (h : x ∉ l) :
    jsIndexOf l x = -1 := by
  induction l with
  | nil => rfl
  | cons y ys ih =>
    have hy : ¬ (y = x) := fun he => h (List.mem_cons.mpr (Or.inl he.symm))
    have hys : x ∉ ys := fun hm => h (List.mem_cons.mpr (Or.inr hm))
    simp only [jsIndexOf, if_neg hy, ih hys]
    simp

theorem jsIndexOf_eq_neg_one_iff {l : List Int} {x : Int} :
    jsIndexOf l x = -1 ↔ x ∉ l := by
  constructor
  · intro he hm
    have := jsIndexOf_nonneg_of_mem hm
    omega
  · exact jsIndexOf_neg_of_not_mem

theorem jsIndexOf_lt_length_of_mem {l : List Int} {x : Int} (h : x ∈ l) :
    jsIndexOf l x < (l.length : Int) := by
  induction l with
  | nil => cases h
  | cons y ys ih =>
    simp only [jsIndexOf, List.length_cons]
    by_cases hy : y = x
    · simp only [if_pos hy]
      omega
    · simp only [if_neg hy]
      have hmem : x ∈ ys := by
        rcases List.mem_cons.mp h with h1 | h1
        · exact absurd h1.symm hy
        · exact h1
      have h1 := ih hmem
      have h2 := jsIndexOf_nonneg_of_mem hmem
      split
      · omega
      · push_cast
        omega

theorem jsGetElem_jsIndexOf {l : List Int} {x : Int} (h : x ∈ l) :
    jsGetElem l (jsIndexOf l x) = some x := by
  induction l with
  | nil => cases h
  | cons y ys ih =>
    simp only [jsIndexOf]
    by_cases hy : y = x
    · simp only [if_pos hy]
      rw [jsGetElem_cons_zero, hy]
    · simp only [if_neg hy]
      have hmem : x ∈ ys := by
        rcases List.mem_cons.mp h with h1 | h1
        · exact absurd h1.symm hy
        · exact h1
      have h0 := jsIndexOf_nonneg_of_mem hmem
      have hne : ¬ (jsIndexOf ys x = -1) := by omega
      simp only [if_neg hne]
      rw [jsGetElem_cons_succ h0]
      exact ih hmem

theorem jsIndexOf_ne_neg_one_of_mem {l : List Int} {x : Int} (h : x ∈ l) :
    jsIndexOf l x ≠ -1 := by
  have := jsIndexOf_nonneg_of_mem h
  omega

theorem jsIndexOf_of_jsGetElem_nodup {l : List Int} {i : Int} {x : Int}
    (hnd : l.Nodup) (h : jsGetElem l i = some x) : jsIndexOf l x = i := by
  induction l generalizing i with
  | nil =>
    rcases jsGetElem_eq_some_iff.mp h with ⟨_, hg⟩
    simp at hg
  | cons y ys ih =>
    rcases jsGetElem_eq_some_iff.mp h with ⟨hi, hg⟩
    rcases List.nodup_cons.mp hnd with ⟨hy, hnd2⟩
    by_cases h0 : i = 0
    · subst h0
      simp at hg
      simp [jsIndexOf, hg]
    · have hipos : 0 < i := by omega
      have htn : i.toNat = (i - 1).toNat + 1 := by omega
      rw [htn] at hg
      simp only [List.get?] at hg
      have h2 : jsGetElem ys (i - 1) = some x := by
        rw [jsGetElem_eq_some_iff]
        exact ⟨by omega, hg⟩
      have hxys : x ∈ ys := mem_of_jsGetElem h2
      have hyx : y ≠ x := by
        intro he
        rw [he] at hy
        exact hy hxys
      have hr := ih hnd2 h2
      simp only [jsIndexOf, if_neg hyx, hr]
      have : ¬ (i - 1 = -1) := by omega
      simp only [if_neg this]
      omega

/-! ## Lemmas: `insertTS` and `sortedDedup` -/

theorem mem_insertTS {b x : Int} {l : List Int} :
    b ∈ insertTS x l ↔ b = x ∨ b ∈ l := by
  induction l with
  | nil => simp [insertTS]
  | cons y ys ih =>
    simp only [insertTS]
    split
    · simp [List.mem_cons]
    · split
      · next h1 h2 =>
        subst h2
        simp only [List.mem_cons]
        tauto
      · simp only [List.mem_cons, ih]
        tauto

theorem insertTS_sorted {l : List Int} (h : List.Sorted (· < ·) l) (x : Int) :
    List.Sorted (· < ·) (insertTS x l) := by
  induction l with
  | nil => simp [insertTS]
  | cons y ys ih =>
    rw [List.sorted_cons] at h
    simp only [insertTS]
    split
    · next hxy =>
      rw [List.sorted_cons]
      constructor
      · intro b hb
        rcases List.mem_cons.mp hb with h1 | h1
        · omega
        · have := h.1 b h1
          omega
      · exact List.sorted_cons.mpr h
    · split
      · exact List.sorted_cons.mpr h
      · next h1 h2 =>
        rw [List.sorted_cons]
        constructor
        · intro b hb
          rcases mem_insertTS.mp hb with h3 | h3
          · omega
          · exact h.1 b h3
        · exact ih h.2

theorem insertTS_of_mem {l : List Int} {x : Int} (hs : List.Sorted (· < ·) l)
    (h : x ∈ l) : insertTS x l = l := by
  induction l with
  | nil => cases h
  | cons y ys ih =>
    rw [List.sorted_cons] at hs
    simp only [insertTS]
    rcases List.mem_cons.mp h with h1 | h1
    · subst h1
      simp
    · have hyx : y < x := hs.1 x h1
      have h2 : ¬ (x < y) := by omega
      have h3 : ¬ (x = y) := by omega
      simp only [if_neg h2, if_neg h3]
      rw [ih hs.2 h1]

theorem insertTS_append_gt {l : List Int} {x : Int} (h : ∀ y ∈ l, y < x) :
    insertTS x l = l ++ [x] := by
  induction l with
  | nil => simp [insertTS]
  | cons y ys ih =>
    have hy : y < x := h y (List.mem_cons_self y ys)
    have h2 : ¬ (x < y) := by omega
    have h3 : ¬ (x = y) := by omega
    simp only [insertTS, if_neg h2, if_neg h3, List.cons_append]
    rw [ih]
    intro z hz
    exact h z (List.mem_cons.mpr (Or.inr hz))

theorem insertTS_cons_of_lt {l : List Int} {x : Int} (h : ∀ y ∈ l, x < y) :
    insertTS x l = x :: l := by
  cases l with
  | nil => rfl
  | cons y ys =>
    have hy : x < y := h y (List.mem_cons_self y ys)
    simp [insertTS, hy]

theorem foldl_insertTS_sorted (l : List Int) :
    ∀ acc : List Int, List.Sorted (· < ·) acc →
      List.Sorted (· < ·) (l.foldl (fun a x => insertTS x a) acc) := by
  induction l with
  | nil => intro acc h; exact h
  | cons y ys ih =>
    intro acc h
    exact ih (insertTS y acc) (insertTS_sorted h y)

theorem sortedDedup_sorted (l : List Int) : List.Sorted (· < ·) (sortedDedup l) :=
  foldl_insertTS_sorted l [] (by simp)

theorem mem_foldl_insertTS (l : List Int) :
    ∀ (acc : List Int) (b : Int),
      b ∈ l.foldl (fun a x => insertTS x a) acc ↔ b ∈ acc ∨ b ∈ l := by
  induction l with
  | nil => intro acc b; simp
  | cons y ys ih =>
    intro acc b
    rw [List.foldl_cons, ih, mem_insertTS]
    simp [List.mem_cons]
    tauto

theorem mem_sortedDedup {l : List Int} {b : Int} : b ∈ sortedDedup l ↔ b ∈ l := by
  rw [sortedDedup, mem_foldl_insertTS]
  simp

theorem sortedDedup_append (l₁ l₂ : List Int) :
    sortedDedup (l₁ ++ l₂) = l₂.foldl (fun a x => insertTS x a) (sortedDedup l₁) := by
  simp [sortedDedup, List.foldl_append]

theorem foldl_insertTS_absorb {acc : List Int} (hs : List.Sorted (· < ·) acc)
    {l : List Int} (h : ∀ x ∈ l, x ∈ acc) :
    l.foldl (fun a x => insertTS x a) acc = acc := by
  induction l with
  | nil => rfl
  | cons y ys ih =>
    rw [List.foldl_cons, insertTS_of_mem hs (h y (List.mem_cons_self y ys))]
    exact ih (fun x hx => h x (List.mem_cons.mpr (Or.inr hx)))

theorem sortedDedup_eq_self {l : List Int} (h : List.Sorted (· < ·) l) :
    sortedDedup l = l := by
  induction l using List.reverseRecOn with
  | nil => rfl
  | append_singleton l a ih =>
    rw [List.Sorted, List.pairwise_append] at h
    rw [sortedDedup_append, List.foldl_cons, List.foldl_nil, ih h.1]
    exact insertTS_append_gt (fun y hy => h.2.2 y hy a (List.mem_singleton_self a))

theorem sortedDedup_absorb {m xs : List Int} (hs : List.Sorted (· < ·) m)
    (h : ∀ x ∈ xs, x ∈ m) : sortedDedup (m ++ xs) = m := by
  rw [sortedDedup_append, sortedDedup_eq_self hs]
  exact foldl_insertTS_absorb hs h

theorem sortedDedup_nodup (l : List Int) : (sortedDedup l).Nodup :=
  (sortedDedup_sorted l).nodup

theorem sortedDedup_append_singleton_lt {m : List Int} {e : Int}
    (hs : List.Sorted (· < ·) m) (h : ∀ y ∈ m, e < y) :
    sortedDedup (m ++ [e]) = e :: m := by
  rw [sortedDedup_append, List.foldl_cons, List.foldl_nil, sortedDedup_eq_self hs]
  exact insertTS_cons_of_lt h

/-! ## Lemmas: the JS map model -/

theorem mget_cons {α : Type} (p : Int × α) (m : List (Int × α)) (k : Int) :
    mget (p :: m) k = if p.1 = k then some p.2 else mget m k := by
  by_cases h : p.1 = k
  · have hb : (p.1 == k) = true := beq_iff_eq.mpr h
    simp only [mget, List.find?, hb, if_pos h]
  · have hb : (p.1 == k) = false := by
      rw [beq_eq_false_iff_ne]
      exact h
    simp only [mget, List.find?, hb, if_neg h]

theorem mhas_cons {α : Type} (p : Int × α) (m : List (Int × α)) (k : Int) :
    mhas (p :: m) k = ((p.1 == k) || mhas m k) := by
  simp [mhas]

theorem mhas_eq_isSome {α : Type} (m : List (Int × α)) (k : Int) :
    mhas m k = (mget m k).isSome := by
  induction m with
  | nil => rfl
  | cons p t ih =>
    rw [mhas_cons, mget_cons, ih]
    by_cases h : p.1 = k
    · have hb : (p.1 == k) = true := beq_iff_eq.mpr h
      rw [hb, if_pos h]
      simp
    · have hb : (p.1 == k) = false := by
        rw [beq_eq_false_iff_ne]
        exact h
      rw [hb, if_neg h]
      simp

theorem mget_mset {α : Type} (m : List (Int × α)) (k : Int) (v : α) (q : Int) :
    mget (mset m k v) q = if q = k then some v else mget m q := by
  induction m with
  | nil =>
    show mget [(k, v)] q = if q = k then some v else none
    rw [mget_cons]
    by_cases h : q = k
    · rw [if_pos h.symm, if_pos h]
    · have h2 : ¬ (k = q) := fun he => h he.symm
      rw [if_neg h2, if_neg h]
      rfl
  | cons p t ih =>
    rcases p with ⟨k0, v0⟩
    simp only [mset]
    split
    · rw [mget_cons, mget_cons]
      dsimp only
      split_ifs <;> first | rfl | omega
    · split
      · next h1 h2 =>
        subst h2
        rw [mget_cons, mget_cons]
        split_ifs <;> first | rfl | omega
      · rw [mget_cons, ih, mget_cons]
        split_ifs <;> first | rfl | omega

theorem mget_head {α : Type} (p : Int × α) (m : List (Int × α)) :
    mget (p :: m) p.1 = some p.2 := by
  rw [mget_cons]
  simp

theorem mget_mem_keys {α : Type} {m : List (Int × α)} {k : Int} {v : α}
    (h : mget m k = some v) : k ∈ m.map Prod.fst := by
  induction m with
  | nil => cases h
  | cons p t ih =>
    rw [mget_cons] at h
    by_cases hp : p.1 = k
    · simp [hp]
    · simp only [if_neg hp] at h
      simp [ih h]

theorem mget_eq_none_of_forall_lt {α : Type} {m : List (Int × α)} {k : Int}
    (h : ∀ b ∈ m.map Prod.fst, k < b) : mget m k = none := by
  induction m with
  | nil => rfl
  | cons p t ih =>
    rw [mget_cons]
    have h1 : k < p.1 := h p.1 (by simp)
    have h2 : ¬ (p.1 = k) := by omega
    rw [if_neg h2]
    exact ih (fun b hb => h b (by simp [hb]))

theorem mem_keys_mset {α : Type} {m : List (Int × α)} {k : Int} {v : α} {b : Int}
    (h : b ∈ (mset m k v).map Prod.fst) : b = k ∨ b ∈ m.map Prod.fst := by
  induction m with
  | nil =>
    simp only [mset, List.map_cons, List.map_nil, List.mem_singleton] at h
    exact Or.inl h
  | cons p t ih =>
    simp only [mset] at h
    split at h
    · simp only [List.map_cons, List.mem_cons] at h
      rcases h with h | h | h
      · exact Or.inl h
      · exact Or.inr (by simp [h])
      · exact Or.inr (by simp [h])
    · split at h
      · simp only [List.map_cons, List.mem_cons] at h
        rcases h with h | h
        · exact Or.inl h
        · exact Or.inr (by simp [h])
      · simp only [List.map_cons, List.mem_cons] at h
        rcases h with h | h
        · exact Or.inr (by simp [h])
        · rcases ih h with h1 | h1
          · exact Or.inl h1
          · exact Or.inr (by simp [h1])

theorem mset_sortedKeys {α : Type} {m : List (Int × α)} (h : SortedKeys m)
    (k : Int) (v : α) : SortedKeys (mset m k v) := by
  induction m with
  | nil =>
    simp [SortedKeys, mset]
  | cons p t ih =>
    simp only [SortedKeys, List.map_cons, List.sorted_cons] at h
    simp only [mset]
    split
    · next h1 =>
      simp only [SortedKeys, List.map_cons, List.sorted_cons]
      refine ⟨?_, ?_, h.2⟩
      · intro b hb
        simp only [List.mem_cons] at hb
        rcases hb with hb | hb
        · omega
        · have := h.1 b hb
          omega
      · exact h.1
    · split
      · next h1 h2 =>
        simp only [SortedKeys, List.map_cons, List.sorted_cons]
        constructor
        · intro b hb
          have := h.1 b hb
          omega
        · exact h.2
      · next h1 h2 =>
        simp only [SortedKeys, List.map_cons, List.sorted_cons]
        constructor
        · intro b hb
          rcases mem_keys_mset hb with h3 | h3
          · omega
          · exact h.1 b h3
        · exact ih h.2

theorem msetAll_sortedKeys {α : Type} (ws : List (Int × α)) :
    ∀ m : List (Int × α), SortedKeys m → SortedKeys (msetAll m ws) := by
  induction ws with
  | nil => intro m h; exact h
  | cons p ws ih =>
    intro m h
    exact ih (mset m p.1 p.2) (mset_sortedKeys h p.1 p.2)

theorem mget_msetAll {α : Type} (ws : List (Int × α)) :
    ∀ (m : List (Int × α)) (k : Int),
      mget (msetAll m ws) k =
        match lastWrite ws k with
        | some v => some v
        | none => mget m k := by
  induction ws with
  | nil => intro m k; rfl
  | cons p ws ih =>
    intro m k
    have step : msetAll m (p :: ws) = msetAll (mset m p.1 p.2) ws := rfl
    rw [step, ih (mset m p.1 p.2) k]
    simp only [lastWrite]
    cases hl : lastWrite ws k with
    | some v => simp
    | none =>
      rw [mget_mset]
      by_cases h : p.1 = k
      · rw [if_pos h.symm, if_pos h]
      · have h2 : ¬ (k = p.1) := fun he => h he.symm
        rw [if_neg h2, if_neg h]

theorem lastWrite_isSome_of_mem {α : Type} {ws : List (Int × α)} {k : Int} {v : α}
    (h : (k, v) ∈ ws) : (lastWrite ws k).isSome := by
  induction ws with
  | nil => cases h
  | cons p ws ih =>
    simp only [lastWrite]
    rcases List.mem_cons.mp h with h1 | h1
    · cases hl : lastWrite ws k with
      | some w => simp
      | none =>
        have : p.1 = k := by rw [← h1]
        simp [this]
    · have := ih h1
      cases hl : lastWrite ws k with
      | some w => simp
      | none => rw [hl] at this; cases this

theorem mapExt {α : Type} :
    ∀ (m₁ m₂ : List (Int × α)), SortedKeys m₁ → SortedKeys m₂ →
      (∀ k, mget m₁ k = mget m₂ k) → m₁ = m₂ := by
  intro m₁
  induction m₁ with
  | nil =>
    intro m₂ _ _ hg
    cases m₂ with
    | nil => rfl
    | cons p t =>
      have := hg p.1
      rw [mget_head] at this
      cases this
  | cons p₁ t₁ ih =>
    intro m₂ h₁ h₂ hg
    cases m₂ with
    | nil =>
      have := hg p₁.1
      rw [mget_head] at this
      cases this
    | cons p₂ t₂ =>
      simp only [SortedKeys, List.map_cons, List.sorted_cons] at h₁ h₂
      have hk12 : p₂.1 ≤ p₁.1 := by
        have hm : mget (p₂ :: t₂) p₁.1 = some p₁.2 := by
          rw [← hg p₁.1, mget_head]
        have hmem := mget_mem_keys hm
        simp only [List.map_cons, List.mem_cons] at hmem
        rcases hmem with h | h
        · omega
        · have := h₂.1 p₁.1 h
          omega
      have hk21 : p₁.1 ≤ p₂.1 := by
        have hm : mget (p₁ :: t₁) p₂.1 = some p₂.2 := by
          rw [hg p₂.1, mget_head]
        have hmem := mget_mem_keys hm
        simp only [List.map_cons, List.mem_cons] at hmem
        rcases hmem with h | h
        · omega
        · have := h₁.1 p₂.1 h
          omega
      have hkeq : p₁.1 = p₂.1 := by omega
      have hveq : p₁.2 = p₂.2 := by
        have hm : mget (p₂ :: t₂) p₁.1 = some p₁.2 := by
          rw [← hg p₁.1, mget_head]
        rw [hkeq, mget_head] at hm
        exact (Option.some.inj hm).symm
      have htl : ∀ k, mget t₁ k = mget t₂ k := by
        intro k
        by_cases hcase : k = p₁.1
        · have e₁ : mget t₁ k = none := by
            refine mget_eq_none_of_forall_lt (fun b hb => ?_)
            have := h₁.1 b hb
            omega
          have e₂ : mget t₂ k = none := by
            refine mget_eq_none_of_forall_lt (fun b hb => ?_)
            have := h₂.1 b hb
            omega
          rw [e₁, e₂]
        · have g := hg k
          rw [mget_cons, mget_cons] at g
          have ne₁ : ¬ (p₁.1 = k) := fun he => hcase he.symm
          have ne₂ : ¬ (p₂.1 = k) := by
            rw [← hkeq]
            exact ne₁
          rw [if_neg ne₁, if_neg ne₂] at g
          exact g
      have hth : t₁ = t₂ := ih t₂ h₁.2 h₂.2 htl
      have hpe : p₁ = p₂ := Prod.ext hkeq hveq
      rw [hpe, hth]

/-! ## Lemmas: the display-index pipeline -/

theorem displayStep1_of_mem {prev : FrameIndexState} {sorted : List Int}
    {lp : Int} {npp : Option Int} {t : Int} (h : t ∈ sorted) :
    displayStep1 prev sorted lp npp (some t) = jsIndexOf sorted t := by
  have h0 := jsIndexOf_nonneg_of_mem h
  have h1 := jsIndexOf_lt_length_of_mem h
  have hlen : ¬ (sorted.length = 0) := by
    intro he
    rw [List.length_eq_zero] at he
    subst he
    cases h
  have hni : jsIndexOf sorted t ≠ -1 := by omega
  simp only [displayStep1, if_neg hlen, if_pos hni]
  have h2 : ¬ (jsIndexOf sorted t ≥ (sorted.length : Int)) := by omega
  rw [if_neg h2]
  have h3 : ¬ (jsIndexOf sorted t < 0 ∧ npp = none ∧ lp ≥ 0) :=
    fun hc => absurd hc.1 (by omega)
  rw [if_neg h3]

theorem maintainStep_fix {dae : Bool} {pp : Option Int} {sorted : List Int}
    {t : Int} (h : t ∈ sorted) :
    maintainStep dae pp (some t) sorted (jsIndexOf sorted t) = jsIndexOf sorted t := by
  have hni := jsIndexOf_ne_neg_one_of_mem h
  unfold maintainStep
  split
  · dsimp only
    rw [if_pos hni]
  · rfl

theorem maintainStep_manual {dae : Bool} {ctm : Option Int} {sorted : List Int}
    {di : Int} {p : Int} :
    maintainStep dae (some p) ctm sorted di = di := by
  unfold maintainStep
  rw [if_neg]
  intro hc
  cases hc.2

theorem safetyStep_manual {pdts : Option Int} {sorted : List Int} {di : Int} {p : Int} :
    safetyStep (some p) pdts sorted di = di := by
  unfold safetyStep
  rw [if_neg]
  intro hc
  cases hc.1

theorem safetyStep_fix {pp : Option Int} {sorted : List Int} {di t : Int}
    (hget : jsGetElem sorted di = some t) :
    safetyStep pp (some t) sorted di = di := by
  unfold safetyStep
  split
  · rw [hget]
    dsimp only
    rw [if_neg (lt_irrefl t)]
  · rfl

/-! ## Lemmas: `mergeFrames` branch structure and projections -/

theorem mergeFull_fst_orderedTimestamps (prev : FrameIndexState) (wfs : List FrameW)
    (dfs : List FrameD) (md : Option Nat) :
    (mergeFull prev wfs dfs md).1.orderedTimestamps =
      computeSorted prev.orderedTimestamps wfs dfs := rfl

theorem mergeFull_fst_framesWindow (prev : FrameIndexState) (wfs : List FrameW)
    (dfs : List FrameD) (md : Option Nat) :
    (mergeFull prev wfs dfs md).1.framesWindow =
      msetAll prev.framesWindow (wfs.map (fun f => (f.ts, f))) := rfl

theorem mergeFull_fst_framesDetails (prev : FrameIndexState) (wfs : List FrameW)
    (dfs : List FrameD) (md : Option Nat) :
    (mergeFull prev wfs dfs md).1.framesDetails =
      msetAll prev.framesDetails (dfs.map (fun f => (f.ts, f))) := rfl

theorem mergeFull_fst_playbackPointer (prev : FrameIndexState) (wfs : List FrameW)
    (dfs : List FrameD) (md : Option Nat) :
    (mergeFull prev wfs dfs md).1.playbackPointer =
      remapPointer prev (computeSorted prev.orderedTimestamps wfs dfs) := rfl

theorem mergeFull_fst_livePointer (prev : FrameIndexState) (wfs : List FrameW)
    (dfs : List FrameD) (md : Option Nat) :
    (mergeFull prev wfs dfs md).1.livePointer =
      (if (computeSorted prev.orderedTimestamps wfs dfs).isEmpty then -1
       else ((computeSorted prev.orderedTimestamps wfs dfs).length : Int) - 1) := rfl

theorem mergeFull_fst_metadata (prev : FrameIndexState) (wfs : List FrameW)
    (dfs : List FrameD) (md : Option Nat) :
    (mergeFull prev wfs dfs md).1.metadata =
      (if prev.metadata.isNone then md else prev.metadata) := rfl

theorem mergeFull_fst_hasFirstFrame (prev : FrameIndexState) (wfs : List FrameW)
    (dfs : List FrameD) (md : Option Nat) :
    (mergeFull prev wfs dfs md).1.hasFirstFrame = prev.hasFirstFrame := rfl

theorem mergeFull_fst_isBackfilling (prev : FrameIndexState) (wfs : List FrameW)
    (dfs : List FrameD) (md : Option Nat) :
    (mergeFull prev wfs dfs md).1.isBackfilling = prev.isBackfilling := rfl

theorem mergeFull_fst_isLivePaused (prev : FrameIndexState) (wfs : List FrameW)
    (dfs : List FrameD) (md : Option Nat) :
    (mergeFull prev wfs dfs md).1.isLivePaused = prev.isLivePaused := rfl

theorem mergeFull_fst_desiredLagMs (prev : FrameIndexState) (wfs : List FrameW)
    (dfs : List FrameD) (md : Option Nat) :
    (mergeFull prev wfs dfs md).1.desiredLagMs = prev.desiredLagMs := rfl

theorem mergeFull_fst_speedFactor (prev : FrameIndexState) (wfs : List FrameW)
    (dfs : List FrameD) (md : Option Nat) :
    (mergeFull prev wfs dfs md).1.speedFactor = prev.speedFactor := rfl

theorem mergeFull_snd (prev : FrameIndexState) (wfs : List FrameW)
    (dfs : List FrameD) (md : Option Nat) :
    (mergeFull prev wfs dfs md).2 =
      { changed := true
        addedEarlier := didAddEarlierOf prev.orderedTimestamps
          (computeSorted prev.orderedTimestamps wfs dfs)
        addedLater := didAddLaterOf prev.orderedTimestamps
          (computeSorted prev.orderedTimestamps wfs dfs)
        hasFramesAfter := !(computeSorted prev.orderedTimestamps wfs dfs).isEmpty } := rfl

theorem mergeFull_fst_displayIndex (prev : FrameIndexState) (wfs : List FrameW)
    (dfs : List FrameD) (md : Option Nat) :
    (mergeFull prev wfs dfs md).1.displayIndex =
      safetyStep prev.playbackPointer (jsGetElem prev.orderedTimestamps prev.displayIndex)
        (computeSorted prev.orderedTimestamps wfs dfs)
        (maintainStep
          (didAddEarlierOf prev.orderedTimestamps (computeSorted prev.orderedTimestamps wfs dfs))
          prev.playbackPointer
          (match prev.playbackPointer with
           | some p => jsGetElem prev.orderedTimestamps p
           | none => jsGetElem prev.orderedTimestamps prev.displayIndex)
          (computeSorted prev.orderedTimestamps wfs dfs)
          (displayStep1 prev (computeSorted prev.orderedTimestamps wfs dfs)
            (if (computeSorted prev.orderedTimestamps wfs dfs).isEmpty then -1
             else ((computeSorted prev.orderedTimestamps wfs dfs).length : Int) - 1)
            (remapPointer prev (computeSorted prev.orderedTimestamps wfs dfs))
            (jsGetElem prev.orderedTimestamps prev.displayIndex))) := rfl

theorem mergeFull_fst_playQueue (prev : FrameIndexState) (wfs : List FrameW)
    (dfs : List FrameD) (md : Option Nat) :
    (mergeFull prev wfs dfs md).1.playQueue =
      queueAdjustStep
        (didAddEarlierOf prev.orderedTimestamps (computeSorted prev.orderedTimestamps wfs dfs))
        prev (computeSorted prev.orderedTimestamps wfs dfs)
        (queueAppendStep prev (computeSorted prev.orderedTimestamps wfs dfs)
          (newLaterSortedOf prev wfs dfs)
          (displayStep1 prev (computeSorted prev.orderedTimestamps wfs dfs)
            (if (computeSorted prev.orderedTimestamps wfs dfs).isEmpty then -1
             else ((computeSorted prev.orderedTimestamps wfs dfs).length : Int) - 1)
            (remapPointer prev (computeSorted prev.orderedTimestamps wfs dfs))
            (jsGetElem prev.orderedTimestamps prev.displayIndex))
          (if (computeSorted prev.orderedTimestamps wfs dfs).isEmpty then -1
           else ((computeSorted prev.orderedTimestamps wfs dfs).length : Int) - 1)) := rfl

theorem mergeFull_fst_isFinal (prev : FrameIndexState) (wfs : List FrameW)
    (dfs : List FrameD) (md : Option Nat) :
    (mergeFull prev wfs dfs md).1.isFinal =
      ((prev.isFinal ||
        (msetAll prev.framesWindow (wfs.map (fun f => (f.ts, f)))).any (fun p => p.2.terminal)) ||
       wfs.any (fun f => f.terminal)) := rfl

theorem mergeFrames_cases (prev : FrameIndexState) (wfs : List FrameW)
    (dfs : List FrameD) (md : Option Nat) :
    mergeFrames prev wfs dfs md = mergeFull prev wfs dfs md ∨
      ((mergeFrames prev wfs dfs md).1 = prev ∧
        (mergeFrames prev wfs dfs md).2.changed = false ∧
        (mergeFrames prev wfs dfs md).2.addedEarlier = false ∧
        (mergeFrames prev wfs dfs md).2.addedLater = false) := by
  unfold mergeFrames
  dsimp only
  split
  · right
    exact ⟨rfl, rfl, rfl, rfl⟩
  · split
    · right
      exact ⟨rfl, rfl, rfl, rfl⟩
    · left
      rfl

theorem mergeFrames_of_payload {prev : FrameIndexState} {wfs : List FrameW}
    {dfs : List FrameD} {md : Option Nat} (h : wfs ≠ [] ∨ dfs ≠ []) :
    mergeFrames prev wfs dfs md = mergeFull prev wfs dfs md := by
  have hp : (!wfs.isEmpty || !dfs.isEmpty) = true := by
    rcases h with h | h
    · have : wfs.isEmpty = false := by
        cases wfs
        · exact absurd rfl h
        · rfl
      simp [this]
    · have : dfs.isEmpty = false := by
        cases dfs
        · exact absurd rfl h
        · rfl
      simp [this]
  unfold mergeFrames
  dsimp only
  rw [hp]
  simp

/-! ## Lemmas: preservation properties of a merge -/

theorem mem_computeSorted_of_mem {prevTs : List Int} {wfs : List FrameW}
    {dfs : List FrameD} {t : Int} (h : t ∈ prevTs) :
    t ∈ computeSorted prevTs wfs dfs := by
  rw [computeSorted, mem_sortedDedup]
  exact List.mem_append_left _ h

theorem mergeFull_displayedTs {prev : FrameIndexState} {wfs : List FrameW}
    {dfs : List FrameD} {md : Option Nat} {t : Int}
    (h : displayedTs prev = some t) :
    displayedTs (mergeFull prev wfs dfs md).1 = some t := by
  have hpd : jsGetElem prev.orderedTimestamps prev.displayIndex = some t := h
  have htmem : t ∈ prev.orderedTimestamps := mem_of_jsGetElem hpd
  have hts : t ∈ computeSorted prev.orderedTimestamps wfs dfs :=
    mem_computeSorted_of_mem htmem
  have hget : jsGetElem (computeSorted prev.orderedTimestamps wfs dfs)
      (jsIndexOf (computeSorted prev.orderedTimestamps wfs dfs) t) = some t :=
    jsGetElem_jsIndexOf hts
  have hdi : (mergeFull prev wfs dfs md).1.displayIndex =
      jsIndexOf (computeSorted prev.orderedTimestamps wfs dfs) t := by
    rw [mergeFull_fst_displayIndex, hpd, displayStep1_of_mem hts]
    cases hpp : prev.playbackPointer with
    | none =>
      dsimp only
      rw [maintainStep_fix hts, safetyStep_fix hget]
    | some p =>
      dsimp only
      rw [maintainStep_manual, safetyStep_manual]
  show jsGetElem (mergeFull prev wfs dfs md).1.orderedTimestamps
      (mergeFull prev wfs dfs md).1.displayIndex = some t
  rw [mergeFull_fst_orderedTimestamps, hdi]
  exact hget

theorem merge_preserves_displayedTs {prev : FrameIndexState} {wfs : List FrameW}
    {dfs : List FrameD} {md : Option Nat} {t : Int}
    (h : displayedTs prev = some t) :
    displayedTs (mergeFrames prev wfs dfs md).1 = some t := by
  rcases mergeFrames_cases prev wfs dfs md with hc | hc
  · rw [hc]
    exact mergeFull_displayedTs h
  · rw [hc.1]
    exact h

theorem merge_pp_none {prev : FrameIndexState} {wfs : List FrameW}
    {dfs : List FrameD} {md : Option Nat} (h : prev.playbackPointer = none) :
    (mergeFrames prev wfs dfs md).1.playbackPointer = none := by
  rcases mergeFrames_cases prev wfs dfs md with hc | hc
  · rw [hc, mergeFull_fst_playbackPointer]
    simp [remapPointer, h]
  · rw [hc.1]
    exact h

theorem merge_preserves_playbackTs {prev : FrameIndexState} {wfs : List FrameW}
    {dfs : List FrameD} {md : Option Nat} {u : Int}
    (h : playbackTs prev = some u) :
    playbackTs (mergeFrames prev wfs dfs md).1 = some u := by
  rcases mergeFrames_cases prev wfs dfs md with hc | hc
  · rw [hc]
    cases hpp : prev.playbackPointer with
    | none =>
      rw [playbackTs, hpp] at h
      cases h
    | some p =>
      rw [playbackTs, hpp] at h
      dsimp only at h
      have hu : u ∈ prev.orderedTimestamps := mem_of_jsGetElem h
      have hus : u ∈ computeSorted prev.orderedTimestamps wfs dfs :=
        mem_computeSorted_of_mem hu
      have hnn := jsIndexOf_ne_neg_one_of_mem hus
      have hpp2 : (mergeFull prev wfs dfs md).1.playbackPointer =
          some (jsIndexOf (computeSorted prev.orderedTimestamps wfs dfs) u) := by
        rw [mergeFull_fst_playbackPointer]
        simp only [remapPointer, hpp]
        rw [h]
        dsimp only
        rw [if_neg hnn]
      rw [playbackTs, hpp2, mergeFull_fst_orderedTimestamps]
      exact jsGetElem_jsIndexOf hus
  · rw [hc.1]
    exact h

theorem merge_sorted {prev : FrameIndexState} {wfs : List FrameW}
    {dfs : List FrameD} {md : Option Nat}
    (h : List.Sorted (· < ·) prev.orderedTimestamps) :
    List.Sorted (· < ·) (mergeFrames prev wfs dfs md).1.orderedTimestamps := by
  rcases mergeFrames_cases prev wfs dfs md with hc | hc
  · rw [hc, mergeFull_fst_orderedTimestamps]
    exact sortedDedup_sorted _
  · rw [hc.1]
    exact h

theorem merge_preserves_speedFactor (prev : FrameIndexState) (wfs : List FrameW)
    (dfs : List FrameD) (md : Option Nat) :
    (mergeFrames prev wfs dfs md).1.speedFactor = prev.speedFactor := by
  rcases mergeFrames_cases prev wfs dfs md with hc | hc
  · rw [hc, mergeFull_fst_speedFactor]
  · rw [hc.1]

theorem merge_preserves_hasFirstFrame (prev : FrameIndexState) (wfs : List FrameW)
    (dfs : List FrameD) (md : Option Nat) :
    (mergeFrames prev wfs dfs md).1.hasFirstFrame = prev.hasFirstFrame := by
  rcases mergeFrames_cases prev wfs dfs md with hc | hc
  · rw [hc, mergeFull_fst_hasFirstFrame]
  · rw [hc.1]

theorem foldMerges_live_displayedTs :
    ∀ (inputs : List MergeInput) (s : FrameIndexState) (t : Int),
      s.playbackPointer = none → displayedTs s = some t →
      displayedTs (foldMerges s inputs) = some t ∧
        (foldMerges s inputs).playbackPointer = none := by
  intro inputs
  induction inputs with
  | nil => intro s t h1 h2; exact ⟨h2, h1⟩
  | cons i rest ih =>
    intro s t h1 h2
    exact ih (applyMerge s i) t (merge_pp_none h1) (merge_preserves_displayedTs h2)

theorem foldMerges_sorted :
    ∀ (inputs : List MergeInput) (s : FrameIndexState),
      List.Sorted (· < ·) s.orderedTimestamps →
      List.Sorted (· < ·) (foldMerges s inputs).orderedTimestamps := by
  intro inputs
  induction inputs with
  | nil => intro s h; exact h
  | cons i rest ih =>
    intro s h
    exact ih (applyMerge s i) (merge_sorted h)

/-! ## Claim theorems C1, C2, C3 -/

/-- C1: while the session is in live regime (`playbackPointer = none`), over
any sequence of `mergeFrames` calls (forward polls and backfills alike) the
timestamp that `displayIndex` resolves to never decreases: if it resolved to
`t` before, it resolves afterwards to some `u` with `t ≤ u` (in fact the
engine preserves it exactly, which in particular covers every single merge of
the sequence). -/
theorem c1_live_displayed_timestamp_monotone (s : FrameIndexState)
    (inputs : List MergeInput) (t : Int)
    (hlive : s.playbackPointer = none) (ht : displayedTs s = some t) :
    ∃ u, displayedTs (foldMerges s inputs) = some u ∧ t ≤ u :=
  ⟨t, (foldMerges_live_displayedTs inputs s t hlive ht).1, le_refl t⟩

/-- C1 witness: a live session showing `t = 20000` still shows `20000` after
a backfill merge prepending three earlier frames. -/
theorem c1_live_displayed_timestamp_monotone_witness :
    liveIndexState.playbackPointer = none ∧
    displayedTs liveIndexState = some 20000 ∧
    ∃ u, displayedTs (foldMerges liveIndexState [backfillInput]) = some u ∧
      20000 ≤ u :=
  ⟨rfl, by decide,
    c1_live_displayed_timestamp_monotone liveIndexState [backfillInput] 20000 rfl
      (by decide)⟩

/-- C2: for every sequence of `mergeFrames` calls with arbitrary window and
details frame lists (out of order, overlapping or duplicated), the resulting
`orderedTimestamps` is strictly increasing and has no duplicates. -/
theorem c2_ordered_timestamps_strictly_increasing (inputs : List MergeInput) :
    List.Sorted (· < ·) (foldMerges createInitialState inputs).orderedTimestamps ∧
    (foldMerges createInitialState inputs).orderedTimestamps.Nodup := by
  have h := foldMerges_sorted inputs createInitialState (by simp [createInitialState])
  exact ⟨h, h.nodup⟩

/-- C3: whenever `mergeFrames` re-sorts the timestamp set, both index-valued
pointers are remapped by re-locating their previous timestamp value: after
any merge, `displayIndex` resolves to the same timestamp it resolved to
before, and so does `playbackPointer` (their timestamps always remain
present, the merge only adds). -/
theorem c3_pointers_remapped_by_timestamp (prev : FrameIndexState)
    (wfs : List FrameW) (dfs : List FrameD) (md : Option Nat) (t u : Int) :
    (displayedTs prev = some t →
      displayedTs (mergeFrames prev wfs dfs md).1 = some t) ∧
    (playbackTs prev = some u →
      playbackTs (mergeFrames prev wfs dfs md).1 = some u) :=
  ⟨fun h => merge_preserves_displayedTs h, fun h => merge_preserves_playbackTs h⟩

/-- C3 witness: the spec's scenario.  Index `[0, 10000, 20000]`, live mode,
display at `t = 20000`; merging frames at `[-30000, -20000, -10000]` yields
sorted order `[-30000, -20000, -10000, 0, 10000, 20000]` and `displayIndex`
is remapped to `5` (the new position of `t = 20000`), not kept at `2`. -/
theorem c3_pointers_remapped_by_timestamp_witness :
    displayedTs liveIndexState = some 20000 ∧
    (applyMerge liveIndexState backfillInput).orderedTimestamps =
      [-30000, -20000, -10000, 0, 10000, 20000] ∧
    (applyMerge liveIndexState backfillInput).displayIndex = 5 ∧
    displayedTs (applyMerge liveIndexState backfillInput) = some 20000 := by
  refine ⟨by decide, by decide, by decide, ?_⟩
  exact (c3_pointers_remapped_by_timestamp liveIndexState backfillInput.wfs
    backfillInput.dfs backfillInput.md 20000 0).1 (by decide)

/-! ## Lemmas: `findClosestTimestampIndex` -/

theorem foldl_closest_isSome (epoch : Int) :
    ∀ (xs : List (Nat × Int)) (b : Nat × Nat),
      (xs.foldl (fun (best : Option (Nat × Nat)) (p : Nat × Int) =>
        let d := (p.2 - epoch).natAbs
        match best with
        | none => some (p.1, d)
        | some (bi, bd) => if d < bd then some (p.1, d) else some (bi, bd))
        (some b)).isSome := by
  intro xs
  induction xs with
  | nil => intro b; rfl
  | cons x xs ih =>
    intro b
    rcases b with ⟨bi, bd⟩
    rw [List.foldl_cons]
    dsimp only
    by_cases hd : (x.2 - epoch).natAbs < bd
    · rw [if_pos hd]
      exact ih _
    · rw [if_neg hd]
      exact ih _

theorem findClosestTimestampIndex_nonneg {l : List Int} (h : l ≠ []) (epoch : Int) :
    0 ≤ findClosestTimestampIndex l epoch := by
  obtain ⟨x, rest, hx⟩ : ∃ x rest, l.enum = x :: rest := by
    cases he : l.enum with
    | nil =>
      exfalso
      have : l.enum.length = l.length := List.enum_length
      rw [he] at this
      cases l
      · exact h rfl
      · simp at this
    | cons x rest => exact ⟨x, rest, rfl⟩
  unfold findClosestTimestampIndex
  rw [hx, List.foldl_cons]
  dsimp only
  have hs := foldl_closest_isSome epoch rest (x.1, (x.2 - epoch).natAbs)
  cases hres : (rest.foldl (fun (best : Option (Nat × Nat)) (p : Nat × Int) =>
      let d := (p.2 - epoch).natAbs
      match best with
      | none => some (p.1, d)
      | some (bi, bd) => if d < bd then some (p.1, d) else some (bi, bd))
      (some (x.1, (x.2 - epoch).natAbs))) with
  | none => rw [hres] at hs; cases hs
  | some q =>
    rcases q with ⟨bi, bd⟩
    dsimp only
    exact Int.ofNat_nonneg bi

/-! ## Claim theorems C6, C7, C8, C10 -/

/-- C6: when manual playback steps while `playbackPointer` sits at
`livePointer`: if the match is not final the session returns to live-follow
(`playbackPointer := none`, `displayIndex := livePointer`, pause flag
cleared); if it is final, playback pauses in place (`isLivePaused := true`,
`playbackPointer` and `displayIndex` unchanged). -/
theorem c6_manual_advance_past_last (s : FrameIndexState)
    (h : s.playbackPointer = some s.livePointer) :
    (s.isFinal = false →
      showNextFrame s =
        { s with
            playbackPointer := none
            displayIndex := s.livePointer
            isLivePaused := false }) ∧
    (s.isFinal = true →
      showNextFrame s = { s with isLivePaused := true } ∧
      (showNextFrame s).playbackPointer = s.playbackPointer ∧
      (showNextFrame s).displayIndex = s.displayIndex) := by
  have hlt : ¬ (s.livePointer + 1 ≤ s.livePointer) := by omega
  constructor
  · intro hf
    unfold showNextFrame
    rw [h]
    dsimp only
    rw [if_neg hlt, hf]
    rfl
  · intro hf
    have hstep : showNextFrame s = { s with isLivePaused := true } := by
      unfold showNextFrame
      rw [h]
      dsimp only
      rw [if_neg hlt, hf]
      rfl
    refine ⟨hstep, ?_, ?_⟩
    · rw [hstep]
    · rw [hstep]

/-- C6 witness: on the index `[0, 10000, 20000, 30000]` with
`playbackPointer = livePointer = 3`, a step goes live when the match is not
final and pauses in place when it is. -/
theorem c6_manual_advance_past_last_witness :
    showNextFrame manualEndLive =
      { manualEndLive with
          playbackPointer := none
          displayIndex := manualEndLive.livePointer
          isLivePaused := false } ∧
    showNextFrame manualEndFinal = { manualEndFinal with isLivePaused := true } :=
  ⟨(c6_manual_advance_past_last manualEndLive rfl).1 rfl,
   ((c6_manual_advance_past_last manualEndFinal rfl).2 rfl).1⟩

/-- C7 (amended): calling `scrubTo` with the index non-empty puts the session
in Manual-Paused — `playbackPointer` and `displayIndex` set to the index of
the closest timestamp, the scheduler timer stopped, the pause flag set, and
`isLive` false — *provided* `playbackPointer` is not already that index; if
it already is, the call leaves the state unchanged (the source early-returns
without pausing). -/
theorem c7_scrub_to_manual_paused (sess : Session) (epoch : Int)
    (hne : sess.st.orderedTimestamps ≠ [])
    (hidx : sess.st.playbackPointer ≠
      some (findClosestTimestampIndex sess.st.orderedTimestamps epoch)) :
    scrubToSession sess epoch =
      { st := { sess.st with
          playbackPointer :=
            some (findClosestTimestampIndex sess.st.orderedTimestamps epoch)
          displayIndex := findClosestTimestampIndex sess.st.orderedTimestamps epoch
          isLivePaused := true }
        timerArmed := false } ∧
    (scrubToSession sess epoch).st.playbackPointer ≠ none ∧
    (scrubToSession sess epoch).st.isLivePaused = true ∧
    (scrubToSession sess epoch).timerArmed = false := by
  have hnonneg := findClosestTimestampIndex_nonneg hne epoch
  have hemp : sess.st.orderedTimestamps.isEmpty = false := by
    cases he : sess.st.orderedTimestamps
    · exact absurd he hne
    · rfl
  have hstep : scrubToSession sess epoch =
      { st := { sess.st with
          playbackPointer :=
            some (findClosestTimestampIndex sess.st.orderedTimestamps epoch)
          displayIndex := findClosestTimestampIndex sess.st.orderedTimestamps epoch
          isLivePaused := true }
        timerArmed := false } := by
    unfold scrubToSession
    rw [hemp]
    dsimp only
    rw [if_neg (by omega : ¬ (findClosestTimestampIndex sess.st.orderedTimestamps epoch < 0)),
      if_neg hidx, if_neg Bool.false_ne_true]
  refine ⟨hstep, ?_, ?_, ?_⟩
  · rw [hstep]
    simp
  · rw [hstep]
  · rw [hstep]

/-- C7 counterexample: the claim as stated fails when `playbackPointer`
already equals the closest index — `scrubTo(0)` on the index `[0, 10000]`
with `playbackPointer = some 0`, pause flag clear and `displayIndex = 1`
returns the state unchanged: the pause flag is not set and `displayIndex` is
not moved to the closest index. -/
theorem c7_scrub_counterexample :
    setPlaybackByEpoch scrubSameIndexState 0 = scrubSameIndexState ∧
    (setPlaybackByEpoch scrubSameIndexState 0).isLivePaused = false ∧
    (setPlaybackByEpoch scrubSameIndexState 0).displayIndex ≠
      findClosestTimestampIndex scrubSameIndexState.orderedTimestamps 0 := by
  refine ⟨by decide, by decide, by decide⟩

/-- C7 witness: `scrubTo(10000)` on `[0, 10000, 20000, 30000]` from
live-follow sets `playbackPointer` to index `1`, pauses, and stops the
timer. -/
theorem c7_scrub_to_manual_paused_witness :
    (scrubToSession ⟨scrubBaseState, true⟩ 10000).st.playbackPointer = some 1 ∧
    (scrubToSession ⟨scrubBaseState, true⟩ 10000).st.displayIndex = 1 ∧
    (scrubToSession ⟨scrubBaseState, true⟩ 10000).st.isLivePaused = true ∧
    (scrubToSession ⟨scrubBaseState, true⟩ 10000).timerArmed = false := by
  have h := c7_scrub_to_manual_paused ⟨scrubBaseState, true⟩ 10000 (by decide)
    (by decide)
  exact ⟨by decide, by decide, h.2.2.1, h.2.2.2⟩

/-- C8: `goLive()` from manual mode clears `playbackPointer`, sets
`displayIndex` to `livePointer`, clears the live-pause flag, and changes no
other field (speed factor, frame maps, timestamps, metadata, desired lag,
`hasFirstFrame`, play queue all preserved). -/
theorem c8_goLive_returns_to_live (s : FrameIndexState) (p : Int)
    (h : s.playbackPointer = some p) :
    goLive s =
      { s with
          playbackPointer := none
          displayIndex := s.livePointer
          isLivePaused := false } ∧
    (goLive s).speedFactor = s.speedFactor ∧
    (goLive s).framesWindow = s.framesWindow ∧
    (goLive s).framesDetails = s.framesDetails ∧
    (goLive s).orderedTimestamps = s.orderedTimestamps ∧
    (goLive s).metadata = s.metadata ∧
    (goLive s).desiredLagMs = s.desiredLagMs ∧
    (goLive s).hasFirstFrame = s.hasFirstFrame ∧
    (goLive s).playQueue = s.playQueue := by
  have hstep : goLive s =
      { s with
          playbackPointer := none
          displayIndex := s.livePointer
          isLivePaused := false } := by
    unfold goLive
    rw [h]
  refine ⟨hstep, ?_, ?_, ?_, ?_, ?_, ?_, ?_, ?_⟩ <;> rw [hstep]

/-- C8 witness: `goLive()` on a concrete manual-mode state. -/
theorem c8_goLive_returns_to_live_witness :
    goLive manualEndFinal =
      { manualEndFinal with
          playbackPointer := none
          displayIndex := manualEndFinal.livePointer
          isLivePaused := false } ∧
    (goLive manualEndFinal).speedFactor = manualEndFinal.speedFactor :=
  ⟨(c8_goLive_returns_to_live manualEndFinal 3 rfl).1,
   (c8_goLive_returns_to_live manualEndFinal 3 rfl).2.1⟩

/-- C10: `setSpeedFactor(x)` stores `max(0.5, min(10.0, x))` — so the stored
factor always lies in `[0.5, 10.0]` — and changes no other state field. -/
theorem c10_setSpeedFactor_clamps (s : FrameIndexState) (x : Rat) :
    setSpeedFactor s x = { s with speedFactor := max (1 / 2 : Rat) (min 10 x) } ∧
    (1 / 2 : Rat) ≤ (setSpeedFactor s x).speedFactor ∧
    (setSpeedFactor s x).speedFactor ≤ 10 := by
  refine ⟨rfl, ?_, ?_⟩
  · exact le_max_left _ _
  · show max (1 / 2 : Rat) (min MAX_SPEED_FACTOR x) ≤ 10
    refine max_le (by norm_num) ?_
    have h1 : min MAX_SPEED_FACTOR x ≤ MAX_SPEED_FACTOR := min_le_left _ _
    have h2 : MAX_SPEED_FACTOR = 10 := rfl
    rw [h2] at h1
    exact h1

/-! ## Lemmas and claim theorems for C9 -/

theorem jsMin_eq_min (a b : Rat) : jsMin a b = min a b := by
  unfold jsMin
  split_ifs with h
  · exact (min_eq_left h).symm
  · exact (min_eq_right (le_of_not_le h)).symm

theorem jsMax_eq_max (a b : Rat) : jsMax a b = max a b := by
  unfold jsMax
  split_ifs with h
  · exact (max_eq_right h).symm
  · exact (max_eq_left (le_of_not_le h)).symm

theorem showNextFrame_speedFactor (s : FrameIndexState) :
    (showNextFrame s).speedFactor = s.speedFactor := by
  unfold showNextFrame
  cases hpp : s.playbackPointer with
  | some p =>
    dsimp only
    split_ifs <;> rfl
  | none =>
    dsimp only
    cases hq : s.playQueue with
    | nil => rfl
    | cons q rest =>
      split_ifs <;> rfl

theorem scheduleDelay_manual_eval {s : FrameIndexState} {p nt ct : Int}
    (hpp : s.playbackPointer = some p) (hpause : s.isLivePaused = false)
    (hplt : p < s.livePointer)
    (hnt : jsGetElem s.orderedTimestamps (p + 1) = some nt)
    (hct : jsGetElem s.orderedTimestamps p = some ct) :
    scheduleDelay s = some (stepDelayRat (nt - ct) s.speedFactor) := by
  unfold scheduleDelay
  rw [hpp]
  dsimp only
  have hcond : (s.isLivePaused || decide (p ≥ s.livePointer)) = false := by
    rw [hpause]
    simp only [Bool.false_or, decide_eq_false_iff_not]
    omega
  rw [hcond, if_neg Bool.false_ne_true, hnt, hct]

theorem stepDelayRat_of_pos (raw : Int) (speed : Rat) (h : 0 < raw) :
    stepDelayRat raw speed = max (150 : Rat) (min 4000 ((raw : Rat) / speed)) := by
  unfold stepDelayRat
  rw [if_pos h]
  dsimp only
  rw [jsMin_eq_min, jsMax_eq_max]
  norm_num [MIN_FRAME_MS, MAX_FRAME_MS]

/-- C9 counterexample: the claim's "exactly half" fails because the per-step
delay is clamped to `[MIN_FRAME_MS, MAX_FRAME_MS]`.  For adjacent timestamps
`0` and `200`, `scheduleNextFrame` computes `200` at speed `1` but `150`
(the clamp floor) at speed `2`, and `150 ≠ 200 / 2`. -/
theorem c9_speed_halving_counterexample :
    scheduleDelay manualShortGap = some 200 ∧
    scheduleDelay { manualShortGap with speedFactor := 2 } = some 150 ∧
    (150 : Rat) ≠ 200 / 2 := by
  have hv1 : stepDelayRat 200 1 = 200 := by
    rw [stepDelayRat_of_pos 200 1 (by norm_num)]
    norm_num
  have hv2 : stepDelayRat 200 2 = 150 := by
    rw [stepDelayRat_of_pos 200 2 (by norm_num)]
    have h100 : ((200 : Int) : Rat) / 2 = 100 := by norm_num
    rw [h100, min_eq_right (by norm_num : (100 : Rat) ≤ 4000),
      max_eq_left (by norm_num : (100 : Rat) ≤ 150)]
  refine ⟨?_, ?_, by norm_num⟩
  · rw [@scheduleDelay_manual_eval manualShortGap 0 200 0 rfl rfl (by decide)
      (by decide) (by decide)]
    show some (stepDelayRat 200 1) = some 200
    rw [hv1]
  · rw [@scheduleDelay_manual_eval { manualShortGap with speedFactor := 2 } 0 200 0
      rfl rfl (by decide) (by decide) (by decide)]
    show some (stepDelayRat 200 2) = some 150
    rw [hv2]

/-- C9 (amended): for an adjacent pair whose spacing keeps both computed
delays strictly inside the clamp (`2 * MIN_FRAME_MS ≤ delta ≤ MAX_FRAME_MS`),
the per-step delay at `speedFactor = 2` is exactly half the delay at
`speedFactor = 1`; and the speed factor itself is never changed by merges or
scheduler steps — only an explicit `setSpeedFactor` call changes it. -/
theorem c9_speed_factor_behavior :
    (∀ (s : FrameIndexState) (p nt ct : Int),
      s.playbackPointer = some p → s.isLivePaused = false → p < s.livePointer →
      jsGetElem s.orderedTimestamps (p + 1) = some nt →
      jsGetElem s.orderedTimestamps p = some ct →
      s.speedFactor = 1 →
      2 * MIN_FRAME_MS ≤ nt - ct → nt - ct ≤ MAX_FRAME_MS →
      ∃ d, scheduleDelay s = some d ∧
        scheduleDelay { s with speedFactor := 2 } = some (d / 2)) ∧
    (∀ (s : FrameIndexState) (inputs : List MergeInput),
      (foldMerges s inputs).speedFactor = s.speedFactor) ∧
    (∀ (s : FrameIndexState) (n : Nat),
      (showNextFrame^[n] s).speedFactor = s.speedFactor) := by
  refine ⟨?_, ?_, ?_⟩
  · intro s p nt ct hpp hpause hplt hnt hct hsp hlo hhi
    have hlo2 : (300 : Int) ≤ nt - ct := by
      have : MIN_FRAME_MS = 150 := rfl
      omega
    have hhi2 : nt - ct ≤ (4000 : Int) := by
      have : MAX_FRAME_MS = 4000 := rfl
      omega
    have hraw : (0 : Int) < nt - ct := by omega
    refine ⟨stepDelayRat (nt - ct) 1, ?_, ?_⟩
    · rw [scheduleDelay_manual_eval hpp hpause hplt hnt hct, hsp]
    · rw [@scheduleDelay_manual_eval { s with speedFactor := 2 } p nt ct hpp hpause
        hplt hnt hct]
      congr 1
      show stepDelayRat (nt - ct) 2 = stepDelayRat (nt - ct) 1 / 2
      rw [stepDelayRat_of_pos (nt - ct) 2 hraw, stepDelayRat_of_pos (nt - ct) 1 hraw,
        div_one]
      have hloR : (300 : Rat) ≤ ((nt - ct : Int) : Rat) := by exact_mod_cast hlo2
      have hhiR : ((nt - ct : Int) : Rat) ≤ 4000 := by exact_mod_cast hhi2
      rw [min_eq_right hhiR]
      rw [max_eq_right (by linarith : (150 : Rat) ≤ ((nt - ct : Int) : Rat))]
      rw [min_eq_right (by linarith : ((nt - ct : Int) : Rat) / 2 ≤ 4000)]
      rw [max_eq_right (by linarith : (150 : Rat) ≤ ((nt - ct : Int) : Rat) / 2)]
  · intro s inputs
    induction inputs generalizing s with
    | nil => rfl
    | cons i rest ih =>
      have hstep : foldMerges s (i :: rest) = foldMerges (applyMerge s i) rest := rfl
      rw [hstep, ih (applyMerge s i)]
      exact merge_preserves_speedFactor s i.wfs i.dfs i.md
  · intro s n
    induction n generalizing s with
    | zero => rfl
    | succ n ih =>
      rw [Function.iterate_succ_apply, ih (showNextFrame s),
        showNextFrame_speedFactor]

/-- C9 witness: adjacent timestamps `0` and `1000` (clamp-free spacing):
delay `1000` at speed `1`, `500` at speed `2`. -/
theorem c9_speed_factor_behavior_witness :
    scheduleDelay manualWideGap = some 1000 ∧
    scheduleDelay { manualWideGap with speedFactor := 2 } = some 500 := by
  obtain ⟨d, h1, h2⟩ := c9_speed_factor_behavior.1 manualWideGap 0 1000 0 rfl rfl
    (by decide) (by decide) (by decide) rfl (by decide) (by decide)
  have hd : d = 1000 := by
    have h3 : scheduleDelay manualWideGap = some 1000 := by
      rw [@scheduleDelay_manual_eval manualWideGap 0 1000 0 rfl rfl (by decide)
        (by decide) (by decide)]
      show some (stepDelayRat 1000 1) = some 1000
      rw [stepDelayRat_of_pos 1000 1 (by norm_num)]
      norm_num
    rw [h1] at h3
    exact Option.some.inj h3
  refine ⟨by rw [h1, hd], ?_⟩
  rw [h2, hd]
  norm_num

/-! ## Lemmas towards idempotence of `mergeFrames` (C4) -/

theorem fisExt {a b : FrameIndexState}
    (h1 : a.framesWindow = b.framesWindow)
    (h2 : a.framesDetails = b.framesDetails)
    (h3 : a.orderedTimestamps = b.orderedTimestamps)
    (h4 : a.hasFirstFrame = b.hasFirstFrame)
    (h5 : a.isBackfilling = b.isBackfilling)
    (h6 : a.livePointer = b.livePointer)
    (h7 : a.playbackPointer = b.playbackPointer)
    (h8 : a.metadata = b.metadata)
    (h9 : a.isFinal = b.isFinal)
    (h10 : a.isLivePaused = b.isLivePaused)
    (h11 : a.desiredLagMs = b.desiredLagMs)
    (h12 : a.speedFactor = b.speedFactor)
    (h13 : a.displayIndex = b.displayIndex)
    (h14 : a.playQueue = b.playQueue) : a = b := by
  cases a
  cases b
  dsimp only at h1 h2 h3 h4 h5 h6 h7 h8 h9 h10 h11 h12 h13 h14
  subst h1 h2 h3 h4 h5 h6 h7 h8 h9 h10 h11 h12 h13 h14
  rfl

theorem mem_epochs_computeSorted {prevTs : List Int} {wfs : List FrameW}
    {dfs : List FrameD} {e : Int} (h : e ∈ epochsOf wfs dfs) :
    e ∈ computeSorted prevTs wfs dfs := by
  rw [computeSorted, mem_sortedDedup]
  exact List.mem_append_right _ h

theorem computeSorted_idem (prevTs : List Int) (wfs : List FrameW) (dfs : List FrameD) :
    computeSorted (computeSorted prevTs wfs dfs) wfs dfs =
      computeSorted prevTs wfs dfs := by
  have hs : List.Sorted (· < ·) (computeSorted prevTs wfs dfs) := sortedDedup_sorted _
  show sortedDedup (computeSorted prevTs wfs dfs ++ epochsOf wfs dfs) = _
  exact sortedDedup_absorb hs (fun e he => mem_epochs_computeSorted he)

theorem msetAll_msetAll {α : Type} {m : List (Int × α)} (hm : SortedKeys m)
    (ws : List (Int × α)) : msetAll (msetAll m ws) ws = msetAll m ws := by
  refine mapExt _ _ (msetAll_sortedKeys ws _ (msetAll_sortedKeys ws m hm))
    (msetAll_sortedKeys ws m hm) (fun k => ?_)
  rw [mget_msetAll, mget_msetAll]
  cases hl : lastWrite ws k with
  | some v => rfl
  | none => rfl

theorem didAddEarlierOf_self (l : List Int) : didAddEarlierOf l l = false := by
  unfold didAddEarlierOf
  cases h : l.head? with
  | none => rfl
  | some s0 => simp

theorem didAddLaterOf_self (l : List Int) : didAddLaterOf l l = false := by
  unfold didAddLaterOf
  cases h : l.getLast? with
  | none => rfl
  | some sl => simp

theorem queueAppendStep_nil (prev : FrameIndexState) (sorted : List Int)
    (di lp : Int) : queueAppendStep prev sorted [] di lp = prev.playQueue := by
  unfold queueAppendStep
  rw [if_neg]
  intro hc
  exact hc.2 rfl

theorem queueAdjustStep_false (prev : FrameIndexState) (sorted : List Int)
    (pq : List Int) : queueAdjustStep false prev sorted pq = pq := by
  unfold queueAdjustStep
  rw [if_neg]
  intro hc
  cases hc.1

theorem maintainStep_false (pp : Option Int) (ctm : Option Int) (sorted : List Int)
    (di : Int) : maintainStep false pp ctm sorted di = di := by
  unfold maintainStep
  rw [if_neg]
  intro hc
  cases hc.1

theorem mhas_msetAll_of_write {α : Type} {m ws : List (Int × α)} {k : Int} {v : α}
    (h : (k, v) ∈ ws) : mhas (msetAll m ws) k = true := by
  rw [mhas_eq_isSome, mget_msetAll]
  have hs := lastWrite_isSome_of_mem h
  cases hl : lastWrite ws k with
  | some w => rfl
  | none => rw [hl] at hs; cases hs

theorem newLaterSortedOf_eq_nil {st : FrameIndexState} {wfs : List FrameW}
    {dfs : List FrameD}
    (hw : ∀ f ∈ wfs, mhas st.framesWindow f.ts = true)
    (hd : ∀ f ∈ dfs, mhas st.framesDetails f.ts = true) :
    newLaterSortedOf st wfs dfs = [] := by
  unfold newLaterSortedOf
  have hfil : (epochsOf wfs dfs).filter (fun e =>
      !(mhas st.framesWindow e) && !(mhas st.framesDetails e) &&
        (match st.orderedTimestamps.getLast? with
         | none => true
         | some latest => decide (latest < e))) = [] := by
    rw [List.filter_eq_nil_iff]
    intro e he
    rw [epochsOf, List.mem_append] at he
    rcases he with he | he
    · rcases List.mem_map.mp he with ⟨f, hf, hfe⟩
      have := hw f hf
      rw [← hfe, this]
      simp
    · rcases List.mem_map.mp he with ⟨f, hf, hfe⟩
      have := hd f hf
      rw [← hfe, this]
      simp
  rw [hfil]
  rfl

theorem jsGetElem_isSome_of_bounds {l : List Int} {i : Int} (h0 : 0 ≤ i)
    (h1 : i < (l.length : Int)) : ∃ x, jsGetElem l i = some x := by
  unfold jsGetElem
  rw [if_neg (by omega : ¬ i < 0)]
  have hlt : i.toNat < l.length := by omega
  exact ⟨l.get ⟨i.toNat, hlt⟩, List.get?_eq_get hlt⟩

theorem displayStep1_lt_length {prev : FrameIndexState} {sorted : List Int}
    {npp : Option Int} {pdts : Option Int} (hne : sorted ≠ []) :
    displayStep1 prev sorted ((sorted.length : Int) - 1) npp pdts <
      (sorted.length : Int) := by
  have hpos : 0 < sorted.length := List.length_pos.mpr hne
  unfold displayStep1
  cases pdts with
  | none =>
    dsimp only
    split_ifs <;> omega
  | some t =>
    dsimp only
    split_ifs <;> omega

theorem displayStep1_nonneg_of_npp_none {prev : FrameIndexState} {sorted : List Int}
    {pdts : Option Int} (hne : sorted ≠ []) :
    0 ≤ displayStep1 prev sorted ((sorted.length : Int) - 1) none pdts := by
  have hpos : 0 < sorted.length := List.length_pos.mpr hne
  unfold displayStep1
  cases pdts with
  | none =>
    dsimp only
    split_ifs <;> first | omega | simp_all
  | some t =>
    dsimp only
    split_ifs <;> first | omega | simp_all

theorem maintainStep_bounds (dae : Bool) (pp : Option Int) (ctm : Option Int)
    (sorted : List Int) (di : Int) :
    maintainStep dae pp ctm sorted di = di ∨
      (0 ≤ maintainStep dae pp ctm sorted di ∧
        maintainStep dae pp ctm sorted di < (sorted.length : Int)) := by
  unfold maintainStep
  split
  · cases ctm with
    | none => exact Or.inl rfl
    | some t =>
      dsimp only
      split_ifs with hmi
      · right
        have hmem : t ∈ sorted := by
          by_contra hc
          exact hmi (jsIndexOf_neg_of_not_mem hc)
        exact ⟨jsIndexOf_nonneg_of_mem hmem, jsIndexOf_lt_length_of_mem hmem⟩
      · exact Or.inl rfl
  · exact Or.inl rfl

theorem safetyStep_bounds (pp : Option Int) (pdts : Option Int)
    (sorted : List Int) (di : Int) :
    safetyStep pp pdts sorted di = di ∨
      (0 ≤ safetyStep pp pdts sorted di ∧
        safetyStep pp pdts sorted di < (sorted.length : Int)) := by
  unfold safetyStep
  split
  · cases pdts with
    | none => exact Or.inl rfl
    | some pt =>
      cases hg : jsGetElem sorted di with
      | none => exact Or.inl rfl
      | some cur =>
        dsimp only
        split_ifs with h1 h2
        · right
          have hmem : pt ∈ sorted := by
            by_contra hc
            exact h2 (jsIndexOf_neg_of_not_mem hc)
          exact ⟨jsIndexOf_nonneg_of_mem hmem, jsIndexOf_lt_length_of_mem hmem⟩
        · exact Or.inl rfl
        · exact Or.inl rfl
  · exact Or.inl rfl

theorem epochsOf_ne_nil {wfs : List FrameW} {dfs : List FrameD}
    (h : wfs ≠ [] ∨ dfs ≠ []) : epochsOf wfs dfs ≠ [] := by
  unfold epochsOf
  rcases h with h | h
  · cases wfs with
    | nil => exact absurd rfl h
    | cons f fs => simp
  · cases dfs with
    | nil => exact absurd rfl h
    | cons f fs => simp

theorem computeSorted_ne_nil {prevTs : List Int} {wfs : List FrameW}
    {dfs : List FrameD} (h : wfs ≠ [] ∨ dfs ≠ []) :
    computeSorted prevTs wfs dfs ≠ [] := by
  have hE := epochsOf_ne_nil h
  rcases List.exists_mem_of_ne_nil _ hE with ⟨e, he⟩
  exact List.ne_nil_of_mem (mem_epochs_computeSorted he)

theorem remapPointer_spec (prev : FrameIndexState) (sorted : List Int) :
    remapPointer prev sorted = none ∨
      ∃ ni t, remapPointer prev sorted = some ni ∧ jsGetElem sorted ni = some t := by
  unfold remapPointer
  cases hpp : prev.playbackPointer with
  | none => exact Or.inl rfl
  | some p =>
    dsimp only
    cases hg : jsGetElem prev.orderedTimestamps p with
    | none => exact Or.inl rfl
    | some t =>
      dsimp only
      split_ifs with hni
      · exact Or.inl rfl
      · right
        have hmem : t ∈ sorted := by
          by_contra hc
          exact hni (jsIndexOf_neg_of_not_mem hc)
        exact ⟨jsIndexOf sorted t, t, rfl, jsGetElem_jsIndexOf hmem⟩

theorem remapPointer_id_of_valid {st : FrameIndexState}
    (hnd : st.orderedTimestamps.Nodup)
    (hval : st.playbackPointer = none ∨
      ∃ ni t, st.playbackPointer = some ni ∧
        jsGetElem st.orderedTimestamps ni = some t) :
    remapPointer st st.orderedTimestamps = st.playbackPointer := by
  rcases hval with h | ⟨ni, t, hpp, hg⟩
  · unfold remapPointer
    rw [h]
  · unfold remapPointer
    rw [hpp]
    dsimp only
    rw [hg]
    dsimp only
    have hidx : jsIndexOf st.orderedTimestamps t = ni :=
      jsIndexOf_of_jsGetElem_nodup hnd hg
    have h0 : 0 ≤ ni := (jsGetElem_eq_some_iff.mp hg).1
    rw [hidx, if_neg (by omega : ¬ ni = -1)]

theorem displayStep1_neg_manual {prev : FrameIndexState} {sorted : List Int}
    {lp : Int} {p : Int} (hne : sorted ≠ []) (hdi : prev.displayIndex < 0) :
    displayStep1 prev sorted lp (some p) none = prev.displayIndex := by
  have hpos : 0 < sorted.length := List.length_pos.mpr hne
  unfold displayStep1
  rw [if_neg (by omega : ¬ sorted.length = 0)]
  dsimp only
  rw [if_neg (by omega : ¬ prev.displayIndex ≥ (sorted.length : Int))]
  rw [if_neg]
  intro hc
  cases hc.2.1

theorem mergeFrames_outer_early {st : FrameIndexState} {wfs : List FrameW}
    {dfs : List FrameD} {md : Option Nat} (hw : wfs = []) (hd : dfs = [])
    (hssm : (md.isSome && st.metadata.isNone) = false) :
    mergeFrames st wfs dfs md =
      (st, { changed := false, addedEarlier := false, addedLater := false,
             hasFramesAfter := !st.orderedTimestamps.isEmpty }) := by
  subst hw hd
  unfold mergeFrames
  dsimp only
  rw [hssm]
  rfl

theorem option_isNone_false_of_isSome {α : Type} {o : Option α}
    (h : o.isSome = true) : o.isNone = false := by
  cases o
  · cases h
  · rfl

theorem merge_metadata_isSome {prev : FrameIndexState} {wfs : List FrameW}
    {dfs : List FrameD} {md : Option Nat} (h : md.isSome = true) :
    (mergeFrames prev wfs dfs md).1.metadata.isSome = true := by
  unfold mergeFrames
  dsimp only
  split
  · next hc =>
    rw [Bool.and_eq_true] at hc
    have h2 := hc.2
    rw [Bool.not_eq_true'] at h2
    rw [h] at h2
    rw [Bool.true_and] at h2
    dsimp only
    cases hm : prev.metadata with
    | some m => rfl
    | none => rw [hm] at h2; cases h2
  · split
    · next hc =>
      rw [Bool.and_eq_true, Bool.and_eq_true] at hc
      have h2 := hc.2
      rw [Bool.not_eq_true'] at h2
      rw [h] at h2
      rw [Bool.and_true] at h2
      dsimp only
      cases hm : prev.metadata with
      | some m => rfl
      | none => rw [hm] at h2; cases h2
    · rw [mergeFull_fst_metadata]
      split_ifs with hn
      · exact h
      · cases hm : prev.metadata with
        | some m => rfl
        | none => rw [hm] at hn; exact absurd rfl hn

theorem bool_or_absorb (a w h : Bool) :
    (((a || w) || h) || w) || h = (a || w) || h := by
  cases a <;> cases w <;> cases h <;> rfl

/-- A merge applied to a state that already absorbed the same input changes
nothing: the stability core of idempotence. -/
theorem mergeFull_stable (s1 : FrameIndexState) (wfs : List FrameW)
    (dfs : List FrameD) (md : Option Nat)
    (hsorted : computeSorted s1.orderedTimestamps wfs dfs = s1.orderedTimestamps)
    (hnd : s1.orderedTimestamps.Nodup)
    (hne : s1.orderedTimestamps ≠ [])
    (hfw : msetAll s1.framesWindow (wfs.map (fun f => (f.ts, f))) = s1.framesWindow)
    (hfd : msetAll s1.framesDetails (dfs.map (fun f => (f.ts, f))) = s1.framesDetails)
    (hlp : s1.livePointer = (s1.orderedTimestamps.length : Int) - 1)
    (hppval : s1.playbackPointer = none ∨
      ∃ ni t, s1.playbackPointer = some ni ∧
        jsGetElem s1.orderedTimestamps ni = some t)
    (hdilt : s1.displayIndex < (s1.orderedTimestamps.length : Int))
    (hdinn : s1.playbackPointer = none → 0 ≤ s1.displayIndex)
    (hmd : md.isSome = true → s1.metadata.isSome = true)
    (h9a : s1.framesWindow.any (fun p => p.2.terminal) = true → s1.isFinal = true)
    (h9b : wfs.any (fun f => f.terminal) = true → s1.isFinal = true) :
    (mergeFull s1 wfs dfs md).1 = s1 ∧
    (mergeFull s1 wfs dfs md).2.addedEarlier = false ∧
    (mergeFull s1 wfs dfs md).2.addedLater = false := by
  have hemp : s1.orderedTimestamps.isEmpty = false := by
    cases he : s1.orderedTimestamps
    · exact absurd he hne
    · rfl
  have hlpif : (if s1.orderedTimestamps.isEmpty then (-1 : Int)
      else (s1.orderedTimestamps.length : Int) - 1) =
      (s1.orderedTimestamps.length : Int) - 1 := by
    rw [hemp, if_neg Bool.false_ne_true]
  have h_ord2 : (mergeFull s1 wfs dfs md).1.orderedTimestamps =
      s1.orderedTimestamps := by
    rw [mergeFull_fst_orderedTimestamps, hsorted]
  have h_w2 : (mergeFull s1 wfs dfs md).1.framesWindow = s1.framesWindow := by
    rw [mergeFull_fst_framesWindow, hfw]
  have h_d2 : (mergeFull s1 wfs dfs md).1.framesDetails = s1.framesDetails := by
    rw [mergeFull_fst_framesDetails, hfd]
  have h_lp2 : (mergeFull s1 wfs dfs md).1.livePointer = s1.livePointer := by
    rw [mergeFull_fst_livePointer, hsorted, hlpif, hlp]
  have h_pp2 : (mergeFull s1 wfs dfs md).1.playbackPointer = s1.playbackPointer := by
    rw [mergeFull_fst_playbackPointer, hsorted]
    exact remapPointer_id_of_valid hnd hppval
  have h_md2 : (mergeFull s1 wfs dfs md).1.metadata = s1.metadata := by
    rw [mergeFull_fst_metadata]
    cases hm : s1.metadata with
    | some m => simp
    | none =>
      cases hmd2 : md with
      | none => simp
      | some m =>
        exfalso
        have := hmd (by rw [hmd2]; rfl)
        rw [hm] at this
        cases this
  have h_fin2 : (mergeFull s1 wfs dfs md).1.isFinal = s1.isFinal := by
    rw [mergeFull_fst_isFinal, hfw]
    have key : ∀ x a b : Bool, (a = true → x = true) → (b = true → x = true) →
        ((x || a) || b) = x := by decide
    exact key _ _ _ h9a h9b
  have hww : ∀ f ∈ wfs, mhas s1.framesWindow f.ts = true := by
    intro f hf
    rw [← hfw]
    exact mhas_msetAll_of_write (List.mem_map.mpr ⟨f, hf, rfl⟩)
  have hdd : ∀ f ∈ dfs, mhas s1.framesDetails f.ts = true := by
    intro f hf
    rw [← hfd]
    exact mhas_msetAll_of_write (List.mem_map.mpr ⟨f, hf, rfl⟩)
  have h_pq2 : (mergeFull s1 wfs dfs md).1.playQueue = s1.playQueue := by
    rw [mergeFull_fst_playQueue, hsorted, newLaterSortedOf_eq_nil hww hdd,
      queueAppendStep_nil, didAddEarlierOf_self, queueAdjustStep_false]
  have h_di2 : (mergeFull s1 wfs dfs md).1.displayIndex = s1.displayIndex := by
    rw [mergeFull_fst_displayIndex, hsorted, hlpif,
      remapPointer_id_of_valid hnd hppval, didAddEarlierOf_self, maintainStep_false]
    by_cases hdi0 : 0 ≤ s1.displayIndex
    · obtain ⟨t2, ht2⟩ := jsGetElem_isSome_of_bounds hdi0 hdilt
      rw [ht2]
      have hmem : t2 ∈ s1.orderedTimestamps := mem_of_jsGetElem ht2
      rw [displayStep1_of_mem hmem,
        jsIndexOf_of_jsGetElem_nodup hnd ht2]
      exact safetyStep_fix ht2
    · push_neg at hdi0
      obtain ⟨p, hpp⟩ : ∃ p, s1.playbackPointer = some p := by
        cases hpp : s1.playbackPointer with
        | none =>
          exfalso
          have := hdinn hpp
          omega
        | some p => exact ⟨p, rfl⟩
      have hpdts : jsGetElem s1.orderedTimestamps s1.displayIndex = none := by
        unfold jsGetElem
        rw [if_pos (by omega : s1.displayIndex < 0)]
      rw [hpdts, hpp, displayStep1_neg_manual hne hdi0]
      exact safetyStep_manual
  refine ⟨fisExt h_w2 h_d2 h_ord2 (mergeFull_fst_hasFirstFrame s1 wfs dfs md)
    (mergeFull_fst_isBackfilling s1 wfs dfs md) h_lp2 h_pp2 h_md2 h_fin2
    (mergeFull_fst_isLivePaused s1 wfs dfs md)
    (mergeFull_fst_desiredLagMs s1 wfs dfs md)
    (mergeFull_fst_speedFactor s1 wfs dfs md) h_di2 h_pq2, ?_, ?_⟩
  · rw [mergeFull_snd]
    dsimp only
    rw [hsorted, didAddEarlierOf_self]
  · rw [mergeFull_snd]
    dsimp only
    rw [hsorted, didAddLaterOf_self]

theorem di_pipeline_lt {prev : FrameIndexState} {sorted : List Int}
    {npp : Option Int} {pdts ctm : Option Int} {dae : Bool} (hne : sorted ≠ []) :
    safetyStep prev.playbackPointer pdts sorted
      (maintainStep dae prev.playbackPointer ctm sorted
        (displayStep1 prev sorted ((sorted.length : Int) - 1) npp pdts)) <
      (sorted.length : Int) := by
  rcases safetyStep_bounds prev.playbackPointer pdts sorted
      (maintainStep dae prev.playbackPointer ctm sorted
        (displayStep1 prev sorted ((sorted.length : Int) - 1) npp pdts)) with he | hb
  · rw [he]
    rcases maintainStep_bounds dae prev.playbackPointer ctm sorted
        (displayStep1 prev sorted ((sorted.length : Int) - 1) npp pdts) with he2 | hb2
    · rw [he2]
      exact displayStep1_lt_length hne
    · exact hb2.2
  · exact hb.2

theorem di_pipeline_nonneg {prev : FrameIndexState} {sorted : List Int}
    {pdts ctm : Option Int} {dae : Bool} (hne : sorted ≠ []) :
    0 ≤ safetyStep prev.playbackPointer pdts sorted
      (maintainStep dae prev.playbackPointer ctm sorted
        (displayStep1 prev sorted ((sorted.length : Int) - 1) none pdts)) := by
  have h1 := @displayStep1_nonneg_of_npp_none prev sorted pdts hne
  rcases safetyStep_bounds prev.playbackPointer pdts sorted
      (maintainStep dae prev.playbackPointer ctm sorted
        (displayStep1 prev sorted ((sorted.length : Int) - 1) none pdts)) with he | hb
  · rw [he]
    rcases maintainStep_bounds dae prev.playbackPointer ctm sorted
        (displayStep1 prev sorted ((sorted.length : Int) - 1) none pdts) with he2 | hb2
    · rw [he2]
      exact h1
    · exact hb2.1
  · exact hb.1

theorem mergeFull_idem (s : FrameIndexState) (wfs : List FrameW)
    (dfs : List FrameD) (md : Option Nat) (hpay : wfs ≠ [] ∨ dfs ≠ [])
    (hW : SortedKeys s.framesWindow) (hD : SortedKeys s.framesDetails) :
    (mergeFull (mergeFull s wfs dfs md).1 wfs dfs md).1 =
      (mergeFull s wfs dfs md).1 ∧
    (mergeFull (mergeFull s wfs dfs md).1 wfs dfs md).2.addedEarlier = false ∧
    (mergeFull (mergeFull s wfs dfs md).1 wfs dfs md).2.addedLater = false := by
  have hneS : computeSorted s.orderedTimestamps wfs dfs ≠ [] :=
    computeSorted_ne_nil hpay
  have hempS : (computeSorted s.orderedTimestamps wfs dfs).isEmpty = false := by
    cases he : computeSorted s.orderedTimestamps wfs dfs
    · exact absurd he hneS
    · rfl
  have h_ord1 := mergeFull_fst_orderedTimestamps s wfs dfs md
  have hlpif : (if (computeSorted s.orderedTimestamps wfs dfs).isEmpty then (-1 : Int)
      else ((computeSorted s.orderedTimestamps wfs dfs).length : Int) - 1) =
      ((computeSorted s.orderedTimestamps wfs dfs).length : Int) - 1 := by
    rw [hempS, if_neg Bool.false_ne_true]
  apply mergeFull_stable
  · rw [h_ord1]
    exact computeSorted_idem _ _ _
  · rw [h_ord1]
    exact sortedDedup_nodup _
  · rw [h_ord1]
    exact hneS
  · rw [mergeFull_fst_framesWindow]
    exact msetAll_msetAll hW _
  · rw [mergeFull_fst_framesDetails]
    exact msetAll_msetAll hD _
  · rw [mergeFull_fst_livePointer, h_ord1, hlpif]
  · rcases remapPointer_spec s (computeSorted s.orderedTimestamps wfs dfs) with h | h
    · left
      rw [mergeFull_fst_playbackPointer]
      exact h
    · right
      rcases h with ⟨ni, t, h, hg⟩
      refine ⟨ni, t, ?_, ?_⟩
      · rw [mergeFull_fst_playbackPointer]
        exact h
      · rw [h_ord1]
        exact hg
  · rw [mergeFull_fst_displayIndex, h_ord1, hlpif]
    exact di_pipeline_lt hneS
  · intro hpp0
    rw [mergeFull_fst_playbackPointer] at hpp0
    rw [mergeFull_fst_displayIndex, hlpif, hpp0]
    exact di_pipeline_nonneg hneS
  · intro h
    rw [mergeFull_fst_metadata]
    split_ifs with hn
    · exact h
    · cases hsm : s.metadata with
      | some m => rfl
      | none => rw [hsm] at hn; exact absurd rfl hn
  · intro h
    rw [mergeFull_fst_framesWindow] at h
    rw [mergeFull_fst_isFinal, h]
    simp
  · intro h
    rw [mergeFull_fst_isFinal, h]
    simp

/-- C4: `mergeFrames` is idempotent.  After any merge, repeating it with
exactly the same window frames, details frames and metadata changes nothing:
the state after the second call equals the state after the first, and the
second call reports no earlier and no later timestamps added.  (The two
`SortedKeys` hypotheses are the representation invariant of the map model,
satisfied by every state the engine builds.) -/
theorem c4_mergeFrames_idempotent (s : FrameIndexState) (wfs : List FrameW)
    (dfs : List FrameD) (md : Option Nat)
    (hW : SortedKeys s.framesWindow) (hD : SortedKeys s.framesDetails) :
    (mergeFrames (mergeFrames s wfs dfs md).1 wfs dfs md).1 =
      (mergeFrames s wfs dfs md).1 ∧
    (mergeFrames (mergeFrames s wfs dfs md).1 wfs dfs md).2.addedEarlier = false ∧
    (mergeFrames (mergeFrames s wfs dfs md).1 wfs dfs md).2.addedLater = false := by
  by_cases hpay : wfs ≠ [] ∨ dfs ≠ []
  · rw [mergeFrames_of_payload hpay, mergeFrames_of_payload hpay]
    exact mergeFull_idem s wfs dfs md hpay hW hD
  · push_neg at hpay
    obtain ⟨hw0, hd0⟩ := hpay
    have hssm2 : (md.isSome &&
        (mergeFrames s wfs dfs md).1.metadata.isNone) = false := by
      cases hmd0 : md with
      | none => rfl
      | some m =>
        have h1 : (mergeFrames s wfs dfs (some m)).1.metadata.isSome = true :=
          merge_metadata_isSome rfl
        rw [option_isNone_false_of_isSome h1]
        simp
    rw [mergeFrames_outer_early hw0 hd0 hssm2]
    exact ⟨rfl, rfl, rfl⟩

/-- C4 witness: idempotence at a concrete state and input. -/
theorem c4_mergeFrames_idempotent_witness :
    SortedKeys liveIndexState.framesWindow ∧
    (mergeFrames (mergeFrames liveIndexState backfillInput.wfs backfillInput.dfs
        backfillInput.md).1 backfillInput.wfs backfillInput.dfs backfillInput.md).1 =
      (mergeFrames liveIndexState backfillInput.wfs backfillInput.dfs
        backfillInput.md).1 :=
  ⟨by unfold SortedKeys; decide,
   (c4_mergeFrames_idempotent liveIndexState backfillInput.wfs backfillInput.dfs
      backfillInput.md (by unfold SortedKeys; decide)
      (by unfold SortedKeys; decide)).1⟩

/-! ## Lemmas: backfill over the synthetic history -/

theorem histSuffix_zero (start : Int) (N : Nat) :
    histSuffix start N 0 = histFrames start N := by
  unfold histSuffix histFrames
  simp

theorem histSuffix_cons (start : Int) {N j : Nat} (h : j < N) :
    histSuffix start N j =
      (start + BACKFILL_STEP_MS * (j : Int)) :: histSuffix start N (j + 1) := by
  unfold histSuffix
  have h1 : N - j = (N - (j + 1)) + 1 := by omega
  rw [h1, List.range_succ_eq_map, List.map_cons, List.map_map]
  refine congrArg₂ List.cons ?_ ?_
  · norm_num
  · refine List.map_congr_left ?_
    intro i _
    simp only [Function.comp]
    push_cast
    ring

theorem histSuffix_sorted (start : Int) (N j : Nat) :
    List.Sorted (· < ·) (histSuffix start N j) := by
  unfold histSuffix
  rw [List.Sorted, List.pairwise_map]
  refine (List.pairwise_lt_range (N - j)).imp ?_
  intro a b hab
  simp only [BACKFILL_STEP_MS]
  omega

theorem lt_of_mem_histSuffix {start : Int} {N j : Nat} {y : Int}
    (hy : y ∈ histSuffix start N j) {m : Int} (hm : m < (j : Int)) :
    start + BACKFILL_STEP_MS * m < y := by
  unfold histSuffix at hy
  simp only [List.mem_map, List.mem_range] at hy
  obtain ⟨i, _, rfl⟩ := hy
  simp only [BACKFILL_STEP_MS]
  omega

theorem roundToPrevious10s_grid {start : Int} (h : roundToPrevious10s start = start)
    (k : Int) :
    roundToPrevious10s (start + BACKFILL_STEP_MS * k) = start + BACKFILL_STEP_MS * k := by
  simp only [roundToPrevious10s, BACKFILL_STEP_MS] at h ⊢
  have h2 : (start + 10000 * k).emod 10000 = start.emod 10000 :=
    Int.add_mul_emod_self_left start 10000 k
  omega

theorem histFrames_snoc (start : Int) (n : Nat) :
    histFrames start (n + 1) =
      histFrames start n ++ [start + BACKFILL_STEP_MS * (n : Int)] := by
  unfold histFrames
  rw [List.range_succ, List.map_append]
  rfl

theorem fetchHist_filter (start : Int) (N : Nat) (m : Int) :
    (histFrames start N).filter
        (fun t => decide (start + BACKFILL_STEP_MS * m ≤ t) &&
          decide (t < start + BACKFILL_STEP_MS * m + BACKFILL_STEP_MS)) =
      (if 0 ≤ m ∧ m < (N : Int) then [start + BACKFILL_STEP_MS * m] else []) := by
  induction N with
  | zero =>
    rw [if_neg]
    · rfl
    · intro hc
      have := hc.2
      omega
  | succ n ih =>
    rw [histFrames_snoc, List.filter_append, ih]
    by_cases hm : (n : Int) = m
    · subst hm
      have hkeep : (decide (start + BACKFILL_STEP_MS * (n : Int) ≤
            start + BACKFILL_STEP_MS * (n : Int)) &&
          decide (start + BACKFILL_STEP_MS * (n : Int) <
            start + BACKFILL_STEP_MS * (n : Int) + BACKFILL_STEP_MS)) = true := by
        simp only [BACKFILL_STEP_MS]
        simp
      simp only [List.filter_cons, List.filter_nil, hkeep, if_true]
      rw [if_neg, if_pos]
      · rfl
      · constructor
        · omega
        · push_cast
          omega
      · intro hc
        have := hc.2
        omega
    · have hdrop : (decide (start + BACKFILL_STEP_MS * m ≤
            start + BACKFILL_STEP_MS * (n : Int)) &&
          decide (start + BACKFILL_STEP_MS * (n : Int) <
            start + BACKFILL_STEP_MS * m + BACKFILL_STEP_MS)) = false := by
        simp only [BACKFILL_STEP_MS, Bool.and_eq_false_iff, decide_eq_false_iff_not,
          not_le, not_lt]
        omega
      have hfilt : List.filter
          (fun t => decide (start + BACKFILL_STEP_MS * m ≤ t) &&
            decide (t < start + BACKFILL_STEP_MS * m + BACKFILL_STEP_MS))
          [start + BACKFILL_STEP_MS * (n : Int)] = [] := by
        simp only [List.filter_cons, List.filter_nil, hdrop]
        simp
      rw [hfilt, List.append_nil]
      by_cases hc : 0 ≤ m ∧ m < (n : Int)
      · have hc2 : 0 ≤ m ∧ m < ((n + 1 : Nat) : Int) := by
          refine ⟨hc.1, ?_⟩
          have := hc.2
          push_cast
          omega
        rw [if_pos hc, if_pos hc2]
      · have hc2 : ¬(0 ≤ m ∧ m < ((n + 1 : Nat) : Int)) := by
          intro h2
          refine hc ⟨h2.1, ?_⟩
          have := h2.2
          push_cast at this
          omega
        rw [if_neg hc, if_neg hc2]

theorem fetchHist_eval (start : Int) (N : Nat) (m : Int) :
    fetchHist start N (start + BACKFILL_STEP_MS * m) =
      ((if 0 ≤ m ∧ m < (N : Int)
        then [({ ts := start + BACKFILL_STEP_MS * m, terminal := false, data := 0 } : FrameW)]
        else []), [], none) := by
  unfold fetchHist
  rw [fetchHist_filter]
  by_cases hc : 0 ≤ m ∧ m < (N : Int)
  · rw [if_pos hc, if_pos hc]
    rfl
  · rw [if_neg hc, if_neg hc]
    rfl

theorem batchRun_zero (fetch : Int → Chunk) (st : FrameIndexState) (cursor : Int) :
    batchRun fetch st cursor 0 =
      { st := st
        anyProgress := false
        sawFrames := false
        earliest := none } := rfl

theorem batchRun_succ (fetch : Int → Chunk) (st : FrameIndexState) (cursor : Int)
    (c : Nat) :
    batchRun fetch st cursor (c + 1) =
      processChunk (batchRun fetch st cursor c)
        (fetch (cursor - BACKFILL_STEP_MS * (c : Int)),
          cursor - BACKFILL_STEP_MS * (c : Int)) := by
  unfold batchRun batchTargetsFrom
  rw [List.range_succ, List.map_append, List.map_append, List.foldl_append]
  rfl

theorem markHasFirstFrame_of_false {prev : FrameIndexState}
    (h : prev.hasFirstFrame = false) :
    markHasFirstFrame prev = { prev with hasFirstFrame := true, isBackfilling := false } := by
  unfold markHasFirstFrame
  rw [h]
  rfl

theorem merge_singleton_prepend {prev : FrameIndexState} {e : Int}
    (hs : List.Sorted (· < ·) prev.orderedTimestamps)
    (he : ∀ y ∈ prev.orderedTimestamps, e < y) :
    ((mergeFrames prev [{ ts := e, terminal := false, data := 0 }] [] none).1.orderedTimestamps
        = e :: prev.orderedTimestamps) ∧
    ((mergeFrames prev [{ ts := e, terminal := false, data := 0 }] [] none).1.hasFirstFrame
        = prev.hasFirstFrame) ∧
    ((mergeFrames prev [{ ts := e, terminal := false, data := 0 }] [] none).2.changed = true) := by
  have hm : mergeFrames prev [{ ts := e, terminal := false, data := 0 }] [] none
      = mergeFull prev [{ ts := e, terminal := false, data := 0 }] [] none :=
    mergeFrames_of_payload (Or.inl (by simp))
  have hcs : computeSorted prev.orderedTimestamps
      [{ ts := e, terminal := false, data := 0 }] []
      = e :: prev.orderedTimestamps := by
    show sortedDedup (prev.orderedTimestamps ++ [e]) = e :: prev.orderedTimestamps
    exact sortedDedup_append_singleton_lt hs he
  refine ⟨?_, ?_, ?_⟩
  · rw [hm, mergeFull_fst_orderedTimestamps, hcs]
  · rw [hm, mergeFull_fst_hasFirstFrame]
  · rw [hm, mergeFull_snd]

theorem processChunk_frame (acc : BatchAcc) (f : FrameW) (tc : Int) :
    processChunk acc (([f], [], none), tc) =
      { st := (mergeFrames acc.st [f] [] none).1
        anyProgress := acc.anyProgress || (mergeFrames acc.st [f] [] none).2.changed
        sawFrames := true
        earliest :=
          match acc.earliest with
          | none => some tc
          | some e => if tc < e then some tc else some e } := rfl

theorem processChunk_empty (acc : BatchAcc) (md : Option Nat) (tc : Int) :
    processChunk acc (([], [], md), tc) = acc := rfl

theorem batchRun_inv (start : Int) {N j0 : Nat} (fis : FrameIndexState)
    (hj0N : j0 < N) (hhf : fis.hasFirstFrame = false)
    (hord : fis.orderedTimestamps = histSuffix start N j0) :
    ∀ c : Nat,
      ((batchRun (fetchHist start N) fis
          (start + BACKFILL_STEP_MS * (j0 : Int) - BACKFILL_STEP_MS) c).st.orderedTimestamps
        = histSuffix start N (j0 - min j0 c)) ∧
      ((batchRun (fetchHist start N) fis
          (start + BACKFILL_STEP_MS * (j0 : Int) - BACKFILL_STEP_MS) c).st.hasFirstFrame
        = false) ∧
      ((batchRun (fetchHist start N) fis
          (start + BACKFILL_STEP_MS * (j0 : Int) - BACKFILL_STEP_MS) c).anyProgress
        = decide (1 ≤ min j0 c)) ∧
      ((batchRun (fetchHist start N) fis
          (start + BACKFILL_STEP_MS * (j0 : Int) - BACKFILL_STEP_MS) c).sawFrames
        = decide (1 ≤ min j0 c)) ∧
      ((batchRun (fetchHist start N) fis
          (start + BACKFILL_STEP_MS * (j0 : Int) - BACKFILL_STEP_MS) c).earliest
        = (if 1 ≤ min j0 c
           then some (start + BACKFILL_STEP_MS * ((j0 - min j0 c : Nat) : Int))
           else none)) ∧
      (min j0 c = 0 →
        (batchRun (fetchHist start N) fis
          (start + BACKFILL_STEP_MS * (j0 : Int) - BACKFILL_STEP_MS) c).st = fis) := by
  intro c
  induction c with
  | zero =>
    rw [batchRun_zero]
    refine ⟨?_, hhf, ?_, ?_, ?_, fun _ => rfl⟩
    · simpa using hord
    · simp
    · simp
    · simp
  | succ c ih =>
    obtain ⟨hordc, hhfc, hprg, hsaw, hearl, hid⟩ := ih
    rw [batchRun_succ]
    have htc : start + BACKFILL_STEP_MS * (j0 : Int) - BACKFILL_STEP_MS
        - BACKFILL_STEP_MS * (c : Int)
        = start + BACKFILL_STEP_MS * ((j0 : Int) - 1 - (c : Int)) := by
      simp only [BACKFILL_STEP_MS]
      ring
    rw [htc, fetchHist_eval]
    by_cases hcj : c < j0
    · have hin : 0 ≤ (j0 : Int) - 1 - (c : Int) ∧ (j0 : Int) - 1 - (c : Int) < (N : Int) := by
        constructor <;> omega
      rw [if_pos hin, processChunk_frame]
      have hsort : List.Sorted (· < ·)
          ((batchRun (fetchHist start N) fis
            (start + BACKFILL_STEP_MS * (j0 : Int) - BACKFILL_STEP_MS) c).st.orderedTimestamps) := by
        rw [hordc]
        exact histSuffix_sorted start N (j0 - min j0 c)
      have he : ∀ y ∈ (batchRun (fetchHist start N) fis
            (start + BACKFILL_STEP_MS * (j0 : Int) - BACKFILL_STEP_MS) c).st.orderedTimestamps,
          start + BACKFILL_STEP_MS * ((j0 : Int) - 1 - (c : Int)) < y := by
        rw [hordc]
        intro y hy
        refine lt_of_mem_histSuffix hy ?_
        omega
      obtain ⟨hord2, hhf2, hch2⟩ := merge_singleton_prepend hsort he
      have hmin1 : 1 ≤ min j0 (c + 1) := by omega
      refine ⟨?_, ?_, ?_, ?_, ?_, ?_⟩
      · show (mergeFrames _ _ _ _).1.orderedTimestamps = _
        rw [hord2, hordc]
        have h1 : j0 - min j0 (c + 1) < N := by omega
        rw [histSuffix_cons start h1]
        refine congrArg₂ List.cons ?_ ?_
        · simp only [BACKFILL_STEP_MS]
          omega
        · congr 1
          omega
      · show (mergeFrames _ _ _ _).1.hasFirstFrame = false
        rw [hhf2, hhfc]
      · show (_ || (mergeFrames _ _ _ _).2.changed) = _
        rw [hch2]
        simp [hmin1]
      · show true = _
        simp [hmin1]
      · show (match (batchRun (fetchHist start N) fis
            (start + BACKFILL_STEP_MS * (j0 : Int) - BACKFILL_STEP_MS) c).earliest with
          | none => some (start + BACKFILL_STEP_MS * ((j0 : Int) - 1 - (c : Int)))
          | some e => if start + BACKFILL_STEP_MS * ((j0 : Int) - 1 - (c : Int)) < e
              then some (start + BACKFILL_STEP_MS * ((j0 : Int) - 1 - (c : Int)))
              else some e) = _
        rw [hearl]
        by_cases h1c : 1 ≤ min j0 c
        · rw [if_pos h1c]
          dsimp only
          have hlt : start + BACKFILL_STEP_MS * ((j0 : Int) - 1 - (c : Int)) <
              start + BACKFILL_STEP_MS * ((j0 - min j0 c : Nat) : Int) := by
            simp only [BACKFILL_STEP_MS]
            omega
          rw [if_pos hlt, if_pos hmin1]
          refine congrArg some ?_
          simp only [BACKFILL_STEP_MS]
          omega
        · rw [if_neg h1c]
          dsimp only
          rw [if_pos hmin1]
          refine congrArg some ?_
          simp only [BACKFILL_STEP_MS]
          omega
      · intro h0
        exact absurd h0 (by omega)
    · have hnin : ¬(0 ≤ (j0 : Int) - 1 - (c : Int) ∧
          (j0 : Int) - 1 - (c : Int) < (N : Int)) := by
        intro h2
        have := h2.1
        omega
      rw [if_neg hnin, processChunk_empty]
      have hmin : min j0 (c + 1) = min j0 c := by omega
      rw [hmin]
      exact ⟨hordc, hhfc, hprg, hsaw, hearl, hid⟩

theorem backfillIter_body (fetch : Int → Chunk) (fis : FrameIndexState) (co : Option Int)
    (anchor : Int) (rest : List Int)
    (hhf : fis.hasFirstFrame = false)
    (hord : fis.orderedTimestamps = anchor :: rest) :
    backfillIter fetch ⟨fis, co⟩ =
      (if (batchRun fetch fis (effectiveCursor ⟨fis, co⟩ anchor) BACKFILL_CONCURRENCY).anyProgress then
        match (batchRun fetch fis (effectiveCursor ⟨fis, co⟩ anchor)
            BACKFILL_CONCURRENCY).st.orderedTimestamps with
        | [] =>
          (⟨markHasFirstFrame (batchRun fetch fis (effectiveCursor ⟨fis, co⟩ anchor)
              BACKFILL_CONCURRENCY).st, none⟩, true)
        | ue :: _ =>
          (⟨(batchRun fetch fis (effectiveCursor ⟨fis, co⟩ anchor) BACKFILL_CONCURRENCY).st,
            some (roundToPrevious10s ue - BACKFILL_STEP_MS)⟩, false)
      else if !(batchRun fetch fis (effectiveCursor ⟨fis, co⟩ anchor)
          BACKFILL_CONCURRENCY).sawFrames then
        (⟨markHasFirstFrame (batchRun fetch fis (effectiveCursor ⟨fis, co⟩ anchor)
            BACKFILL_CONCURRENCY).st, none⟩, true)
      else
        match (batchRun fetch fis (effectiveCursor ⟨fis, co⟩ anchor)
            BACKFILL_CONCURRENCY).earliest with
        | some e =>
          (⟨(batchRun fetch fis (effectiveCursor ⟨fis, co⟩ anchor) BACKFILL_CONCURRENCY).st,
            some (e - BACKFILL_STEP_MS)⟩, false)
        | none =>
          match (batchRun fetch fis (effectiveCursor ⟨fis, co⟩ anchor)
              BACKFILL_CONCURRENCY).st.orderedTimestamps with
          | ue :: _ =>
            (⟨(batchRun fetch fis (effectiveCursor ⟨fis, co⟩ anchor) BACKFILL_CONCURRENCY).st,
              some (roundToPrevious10s ue - BACKFILL_STEP_MS)⟩, false)
          | [] =>
            (⟨markHasFirstFrame (batchRun fetch fis (effectiveCursor ⟨fis, co⟩ anchor)
                BACKFILL_CONCURRENCY).st, none⟩, true)) := by
  unfold backfillIter
  dsimp only
  rw [hhf, hord]
  rfl

theorem backfillIter_progress (start : Int) {N j0 : Nat} (fis : FrameIndexState)
    (hstart : roundToPrevious10s start = start)
    (hj0N : j0 < N) (hj01 : 1 ≤ j0)
    (hhf : fis.hasFirstFrame = false)
    (hord : fis.orderedTimestamps = histSuffix start N j0) :
    ∃ fis2 : FrameIndexState,
      backfillIter (fetchHist start N)
          ⟨fis, some (start + BACKFILL_STEP_MS * (j0 : Int) - BACKFILL_STEP_MS)⟩ =
        (⟨fis2, some (start + BACKFILL_STEP_MS * ((j0 - 10 : Nat) : Int) - BACKFILL_STEP_MS)⟩,
          false) ∧
      fis2.hasFirstFrame = false ∧
      fis2.orderedTimestamps = histSuffix start N (j0 - 10) := by
  obtain ⟨hordA, hhfA, hprgA, hsawA, hearlA, hidA⟩ :=
    batchRun_inv start fis hj0N hhf hord BACKFILL_CONCURRENCY
  have hordcons : fis.orderedTimestamps =
      (start + BACKFILL_STEP_MS * (j0 : Int)) :: histSuffix start N (j0 + 1) := by
    rw [hord, histSuffix_cons start hj0N]
  have hcur : effectiveCursor
      ⟨fis, some (start + BACKFILL_STEP_MS * (j0 : Int) - BACKFILL_STEP_MS)⟩
      (start + BACKFILL_STEP_MS * (j0 : Int)) =
      start + BACKFILL_STEP_MS * (j0 : Int) - BACKFILL_STEP_MS := rfl
  have hbody := backfillIter_body (fetchHist start N) fis
    (some (start + BACKFILL_STEP_MS * (j0 : Int) - BACKFILL_STEP_MS))
    (start + BACKFILL_STEP_MS * (j0 : Int)) (histSuffix start N (j0 + 1)) hhf hordcons
  rw [hcur] at hbody
  have hprg : (batchRun (fetchHist start N) fis
      (start + BACKFILL_STEP_MS * (j0 : Int) - BACKFILL_STEP_MS)
      BACKFILL_CONCURRENCY).anyProgress = true := by
    rw [hprgA]
    have h10 : 1 ≤ min j0 BACKFILL_CONCURRENCY := by
      have hc10 : BACKFILL_CONCURRENCY = 10 := rfl
      rw [hc10]
      omega
    simp [h10]
  rw [hprg, if_pos rfl] at hbody
  have hms : j0 - min j0 BACKFILL_CONCURRENCY = j0 - 10 := by
    have hc10 : BACKFILL_CONCURRENCY = 10 := rfl
    rw [hc10]
    omega
  rw [hms] at hordA
  have h2 : j0 - 10 < N := by omega
  have hordA2 : (batchRun (fetchHist start N) fis
      (start + BACKFILL_STEP_MS * (j0 : Int) - BACKFILL_STEP_MS)
      BACKFILL_CONCURRENCY).st.orderedTimestamps =
      (start + BACKFILL_STEP_MS * ((j0 - 10 : Nat) : Int)) ::
        histSuffix start N ((j0 - 10) + 1) := by
    rw [hordA, histSuffix_cons start h2]
  rw [hordA2] at hbody
  dsimp only at hbody
  rw [roundToPrevious10s_grid hstart ((j0 - 10 : Nat) : Int)] at hbody
  refine ⟨(batchRun (fetchHist start N) fis
      (start + BACKFILL_STEP_MS * (j0 : Int) - BACKFILL_STEP_MS)
      BACKFILL_CONCURRENCY).st, hbody, hhfA, ?_⟩
  rw [hordA2, histSuffix_cons start h2]

theorem backfillIter_stop (start : Int) {N : Nat} (fis : FrameIndexState)
    (hN : 0 < N)
    (hhf : fis.hasFirstFrame = false)
    (hord : fis.orderedTimestamps = histSuffix start N 0) :
    backfillIter (fetchHist start N)
        ⟨fis, some (start + BACKFILL_STEP_MS * ((0 : Nat) : Int) - BACKFILL_STEP_MS)⟩ =
      (⟨markHasFirstFrame fis, none⟩, true) := by
  obtain ⟨hordA, hhfA, hprgA, hsawA, hearlA, hidA⟩ :=
    batchRun_inv start fis hN hhf hord BACKFILL_CONCURRENCY
  have hordcons : fis.orderedTimestamps =
      (start + BACKFILL_STEP_MS * ((0 : Nat) : Int)) :: histSuffix start N (0 + 1) := by
    rw [hord, histSuffix_cons start hN]
  have hcur : effectiveCursor
      ⟨fis, some (start + BACKFILL_STEP_MS * ((0 : Nat) : Int) - BACKFILL_STEP_MS)⟩
      (start + BACKFILL_STEP_MS * ((0 : Nat) : Int)) =
      start + BACKFILL_STEP_MS * ((0 : Nat) : Int) - BACKFILL_STEP_MS := rfl
  have hbody := backfillIter_body (fetchHist start N) fis
    (some (start + BACKFILL_STEP_MS * ((0 : Nat) : Int) - BACKFILL_STEP_MS))
    (start + BACKFILL_STEP_MS * ((0 : Nat) : Int)) (histSuffix start N (0 + 1)) hhf hordcons
  rw [hcur] at hbody
  have hmin0 : min 0 BACKFILL_CONCURRENCY = 0 := by decide
  have hprg : (batchRun (fetchHist start N) fis
      (start + BACKFILL_STEP_MS * ((0 : Nat) : Int) - BACKFILL_STEP_MS)
      BACKFILL_CONCURRENCY).anyProgress = false := by
    rw [hprgA, hmin0]
    simp
  have hsaw : (batchRun (fetchHist start N) fis
      (start + BACKFILL_STEP_MS * ((0 : Nat) : Int) - BACKFILL_STEP_MS)
      BACKFILL_CONCURRENCY).sawFrames = false := by
    rw [hsawA, hmin0]
    simp
  rw [hprg, if_neg Bool.false_ne_true, hsaw] at hbody
  have hnot : (!(false : Bool)) = true := rfl
  rw [hnot, if_pos rfl, hidA hmin0] at hbody
  exact hbody

theorem runBackfillLoop_succ (fetch : Int → Chunk) (n : Nat) (bs : BackfillState) :
    runBackfillLoop fetch (n + 1) bs =
      (if (backfillIter fetch bs).2 then (backfillIter fetch bs).1
       else runBackfillLoop fetch n (backfillIter fetch bs).1) := rfl

theorem backfill_loop_reaches (start : Int) {N : Nat}
    (hstart : roundToPrevious10s start = start) :
    ∀ (fuel : Nat), ∀ (j0 : Nat) (fis : FrameIndexState),
      j0 < N → fis.hasFirstFrame = false →
      fis.orderedTimestamps = histSuffix start N j0 →
      (j0 + 9) / 10 + 1 ≤ fuel →
      ((runBackfillLoop (fetchHist start N) fuel
          ⟨fis, some (start + BACKFILL_STEP_MS * (j0 : Int) - BACKFILL_STEP_MS)⟩).fis.hasFirstFrame
          = true ∧
        (runBackfillLoop (fetchHist start N) fuel
          ⟨fis, some (start + BACKFILL_STEP_MS * (j0 : Int) - BACKFILL_STEP_MS)⟩).fis.orderedTimestamps
          = histFrames start N) := by
  intro fuel
  induction fuel with
  | zero =>
    intro j0 fis _ _ _ hfuel
    omega
  | succ f ih =>
    intro j0 fis hj0N hhf hord hfuel
    rw [runBackfillLoop_succ]
    by_cases hj01 : 1 ≤ j0
    · obtain ⟨fis2, hiter, hhf2, hord2⟩ :=
        backfillIter_progress start fis hstart hj0N hj01 hhf hord
      rw [hiter]
      dsimp only
      rw [if_neg Bool.false_ne_true]
      have h1 : j0 - 10 < N := by omega
      have h2 : (j0 - 10 + 9) / 10 + 1 ≤ f := by omega
      exact ih (j0 - 10) fis2 h1 hhf2 hord2 h2
    · have hj00 : j0 = 0 := by omega
      subst hj00
      rw [backfillIter_stop start fis (by omega) hhf hord]
      dsimp only
      rw [if_pos rfl]
      rw [markHasFirstFrame_of_false hhf]
      constructor
      · rfl
      · show fis.orderedTimestamps = histFrames start N
        rw [hord, histSuffix_zero]

theorem backfillInitState_hasFirstFrame (start : Int) (n : Nat) :
    (backfillInitState start n).hasFirstFrame = false := by
  unfold backfillInitState
  rw [merge_preserves_hasFirstFrame]
  rfl

theorem backfillInitState_orderedTimestamps (start : Int) {n : Nat} (hn : 1 ≤ n) :
    (backfillInitState start n).orderedTimestamps = histSuffix start n (n - 1) := by
  unfold backfillInitState
  have hs : List.Sorted (· < ·) createInitialState.orderedTimestamps := by
    simp [createInitialState]
  have he : ∀ y ∈ createInitialState.orderedTimestamps,
      start + BACKFILL_STEP_MS * ((n : Int) - 1) < y := by
    intro y hy
    simp [createInitialState] at hy
  obtain ⟨h1, _, _⟩ := merge_singleton_prepend hs he
  rw [h1]
  have hnil : histSuffix start n n = [] := by
    unfold histSuffix
    simp
  have hstep : n - 1 + 1 = n := by omega
  rw [histSuffix_cons start (show n - 1 < n by omega), hstep, hnil]
  refine congrArg₂ List.cons ?_ ?_
  · simp only [BACKFILL_STEP_MS]
    omega
  · rfl

theorem backfillIter_none_eq (start : Int) {N : Nat} (fis : FrameIndexState)
    (hstart : roundToPrevious10s start = start) (hN : 1 ≤ N)
    (hhf : fis.hasFirstFrame = false)
    (hord : fis.orderedTimestamps = histSuffix start N (N - 1)) :
    backfillIter (fetchHist start N) ⟨fis, none⟩ =
      backfillIter (fetchHist start N)
        ⟨fis, some (start + BACKFILL_STEP_MS * ((N - 1 : Nat) : Int) - BACKFILL_STEP_MS)⟩ := by
  have hordcons : fis.orderedTimestamps =
      (start + BACKFILL_STEP_MS * ((N - 1 : Nat) : Int)) :: histSuffix start N ((N - 1) + 1) := by
    rw [hord, histSuffix_cons start (show N - 1 < N by omega)]
  have h1 := backfillIter_body (fetchHist start N) fis none
    (start + BACKFILL_STEP_MS * ((N - 1 : Nat) : Int)) (histSuffix start N ((N - 1) + 1))
    hhf hordcons
  have h2 := backfillIter_body (fetchHist start N) fis
    (some (start + BACKFILL_STEP_MS * ((N - 1 : Nat) : Int) - BACKFILL_STEP_MS))
    (start + BACKFILL_STEP_MS * ((N - 1 : Nat) : Int)) (histSuffix start N ((N - 1) + 1))
    hhf hordcons
  have hceq : effectiveCursor ⟨fis, none⟩
        (start + BACKFILL_STEP_MS * ((N - 1 : Nat) : Int)) =
      effectiveCursor
        ⟨fis, some (start + BACKFILL_STEP_MS * ((N - 1 : Nat) : Int) - BACKFILL_STEP_MS)⟩
        (start + BACKFILL_STEP_MS * ((N - 1 : Nat) : Int)) := by
    show roundToPrevious10s (start + BACKFILL_STEP_MS * ((N - 1 : Nat) : Int))
        - BACKFILL_STEP_MS = _
    rw [roundToPrevious10s_grid hstart]
    rfl
  rw [h1, h2, hceq]

theorem runBackfillLoop_congr_first (fetch : Int → Chunk) {bs1 bs2 : BackfillState} (f : Nat)
    (h : backfillIter fetch bs1 = backfillIter fetch bs2) :
    runBackfillLoop fetch (f + 1) bs1 = runBackfillLoop fetch (f + 1) bs2 := by
  rw [runBackfillLoop_succ, runBackfillLoop_succ, h]

theorem foldl_processChunk_empty (fetch : Int → Chunk)
    (hfetch : ∀ tc, (fetch tc).1 = [] ∧ (fetch tc).2.1 = []) :
    ∀ (ts : List Int) (acc : BatchAcc),
      (ts.map (fun tc => (fetch tc, tc))).foldl processChunk acc = acc := by
  intro ts
  induction ts with
  | nil => intro acc; rfl
  | cons t ts ih =>
    intro acc
    rw [List.map_cons, List.foldl_cons]
    have h1 : processChunk acc (fetch t, t) = acc := by
      unfold processChunk
      dsimp only
      rw [(hfetch t).1, (hfetch t).2]
      simp
    rw [h1, ih]

theorem backfillIter_exhausted (fetch : Int → Chunk) (bs : BackfillState)
    (hhf : bs.fis.hasFirstFrame = false)
    (hne : bs.fis.orderedTimestamps ≠ [])
    (hfetch : ∀ tc, (fetch tc).1 = [] ∧ (fetch tc).2.1 = []) :
    backfillIter fetch bs = (⟨markHasFirstFrame bs.fis, none⟩, true) := by
  obtain ⟨anchor, rest, hord⟩ : ∃ a r, bs.fis.orderedTimestamps = a :: r := by
    cases h : bs.fis.orderedTimestamps with
    | nil => exact absurd h hne
    | cons a r => exact ⟨a, r, rfl⟩
  have hbs : bs = ⟨bs.fis, bs.cursor⟩ := rfl
  rw [hbs, backfillIter_body fetch bs.fis bs.cursor anchor rest hhf hord]
  have hrun : batchRun fetch bs.fis
      (effectiveCursor ⟨bs.fis, bs.cursor⟩ anchor) BACKFILL_CONCURRENCY =
      { st := bs.fis
        anyProgress := false
        sawFrames := false
        earliest := none } := by
    unfold batchRun
    exact foldl_processChunk_empty fetch hfetch _ _
  rw [hrun]
  dsimp only
  rw [if_neg Bool.false_ne_true, if_pos (show (!(false : Bool)) = true from rfl)]

theorem runBackfillLoop_done (fetch : Int → Chunk) :
    ∀ (fuel : Nat) (bs : BackfillState), bs.fis.hasFirstFrame = true →
      runBackfillLoop fetch fuel bs = bs := by
  intro fuel
  induction fuel with
  | zero => intro bs _; rfl
  | succ f _ =>
    intro bs hhf
    rw [runBackfillLoop_succ]
    have hiter : backfillIter fetch bs = (bs, true) := by
      unfold backfillIter
      rw [hhf, if_pos rfl]
    rw [hiter]
    rfl

/-- C5 counterexample: with a synthetic history of `N = 2` frames the claimed
bound of `ceil(N / 10) = 1` batch iterations is not enough — after one
iteration `hasFirstFrame` is still `false`, because the frames found in the
first batch keep the loop running and only the following all-empty batch marks
`hasFirstFrame = true`.  One extra iteration (here 2) does reach
`hasFirstFrame = true` with the full history indexed. -/
theorem c5_ceil_bound_counterexample :
    (runBackfillLoop (fetchHist 0 2) 1
        ⟨backfillInitState 0 2, none⟩).fis.hasFirstFrame = false ∧
    (runBackfillLoop (fetchHist 0 2) 2
        ⟨backfillInitState 0 2, none⟩).fis.hasFirstFrame = true ∧
    (runBackfillLoop (fetchHist 0 2) 2
        ⟨backfillInitState 0 2, none⟩).fis.orderedTimestamps = histFrames 0 2 := by
  refine ⟨by decide, by decide, by decide⟩

/-- C5 (amended): backfill terminates at the event's true start.  (1) For a
finite synthetic history of `N ≥ 1` frames at `BACKFILL_STEP_MS` spacing from
a grid-aligned `start`, the `runBackfill` loop started from the subscription
state reaches `hasFirstFrame = true` within `ceil(N / 10) + 1` batch
iterations — one more than the spec's `ceil(N / concurrency)` — with all `N`
frames present in the index.  (2) Any single batch in which every request
returns zero frames marks `hasFirstFrame = true` and breaks the loop.
(3) Once `hasFirstFrame = true`, the loop stops immediately and changes
nothing, so backfill is over permanently. -/
theorem c5_backfill_termination :
    (∀ (start : Int) (N : Nat), roundToPrevious10s start = start → 1 ≤ N →
      (runBackfillLoop (fetchHist start N) ((N + 9) / 10 + 1)
          ⟨backfillInitState start N, none⟩).fis.hasFirstFrame = true ∧
      (runBackfillLoop (fetchHist start N) ((N + 9) / 10 + 1)
          ⟨backfillInitState start N, none⟩).fis.orderedTimestamps = histFrames start N) ∧
    (∀ (fetch : Int → Chunk) (bs : BackfillState),
      bs.fis.hasFirstFrame = false → bs.fis.orderedTimestamps ≠ [] →
      (∀ tc, (fetch tc).1 = [] ∧ (fetch tc).2.1 = []) →
      (backfillIter fetch bs).2 = true ∧
      (backfillIter fetch bs).1.fis.hasFirstFrame = true) ∧
    (∀ (fetch : Int → Chunk) (fuel : Nat) (bs : BackfillState),
      bs.fis.hasFirstFrame = true → runBackfillLoop fetch fuel bs = bs) := by
  refine ⟨?_, ?_, ?_⟩
  · intro start N hstart hN
    have hinit_hf := backfillInitState_hasFirstFrame start N
    have hinit_ord := backfillInitState_orderedTimestamps start hN
    have hbridge := backfillIter_none_eq start (backfillInitState start N) hstart hN
      hinit_hf hinit_ord
    have hcongr := runBackfillLoop_congr_first (fetchHist start N) ((N + 9) / 10) hbridge
    rw [hcongr]
    exact backfill_loop_reaches start hstart ((N + 9) / 10 + 1) (N - 1)
      (backfillInitState start N) (by omega) hinit_hf hinit_ord (by omega)
  · intro fetch bs hhf hne hfetch
    rw [backfillIter_exhausted fetch bs hhf hne hfetch]
    constructor
    · rfl
    · show (markHasFirstFrame bs.fis).hasFirstFrame = true
      rw [markHasFirstFrame_of_false hhf]
  · intro fetch fuel bs hhf
    exact runBackfillLoop_done fetch fuel bs hhf

/-- C5 witness: the amended bound applied to the concrete history of 2 frames
at `start = 0` — `ceil(2 / 10) + 1 = 2` iterations reach `hasFirstFrame` with
both frames indexed. -/
theorem c5_backfill_termination_witness :
    roundToPrevious10s 0 = 0 ∧
    (runBackfillLoop (fetchHist 0 2) ((2 + 9) / 10 + 1)
        ⟨backfillInitState 0 2, none⟩).fis.hasFirstFrame = true ∧
    (runBackfillLoop (fetchHist 0 2) ((2 + 9) / 10 + 1)
        ⟨backfillInitState 0 2, none⟩).fis.orderedTimestamps = histFrames 0 2 :=
  ⟨by decide,
   (c5_backfill_termination.1 0 2 (by decide) (by decide)).1,
   (c5_backfill_termination.1 0 2 (by decide) (by decide)).2⟩
